import Mathlib

/-!
Verification development for the EML parser library (src/unnamed/part_000).

The library is JavaScript/TypeScript; we give a shallow embedding over
`List Char`.  Each regular expression used by the source is modelled by an
explicit character-level function carrying the exact backtracking
behaviour of the JS engine on the shapes of input the parser feeds it.
Stateful loops (`parseRecursive`, `completeBoundary`, `_read`, `_append`)
become explicit state-passing functions in the `Except` monad; every
JavaScript `throw` (including implicit `TypeError`s from `null`/`undefined`
dereferences the source performs) is modelled as an `Except.error`.
External collaborators that the specification declares out of scope
(charset codec, Base64 codec, address-list tokenizer) are threaded through
as an explicit `Svc` record of service functions.
-/

namespace Eml

abbrev Chars := List Char

def crlf : Chars := ['\r', '\n']

/-- JS regex class `\s` (the ASCII part; header lines never contain the
Unicode spaces). -/
def isWs (c : Char) : Bool :=
  c == ' ' || c == '\t' || c == '\n' || c == '\r' || c == '\x0b' || c == '\x0c'

/-- character class `[\w\d\-]` used by the header-name regex and the
`name=` capture class `[\w\-]`. -/
def isHdrChar (c : Char) : Bool := c.isAlphanum || c == '_' || c == '-'

/-- character class `\w`. -/
def isWordC (c : Char) : Bool := c.isAlphanum || c == '_'

def notCrlf (c : Char) : Bool := c != '\r' && c != '\n'

/-- `eml.split(/\r?\n/)`: split on `\n` or `\r\n`; a lone `\r` stays in the
line. -/
def splitLines : Chars → List Chars
  | [] => [[]]
  | '\r' :: '\n' :: rest => [] :: splitLines rest
  | '\n' :: rest => [] :: splitLines rest
  | c :: rest =>
    match splitLines rest with
    | [] => [[c]]
    | l :: ls => (c :: l) :: ls

/-- `lines.join("\r\n")`. -/
def joinCRLF (ls : List Chars) : Chars := List.intercalate crlf ls

/-- `hay.indexOf(needle) >= 0` for strings (substring containment). -/
def hasSub : Chars → Chars → Bool
  | _, [] => true
  | [], _ :: _ => false
  | h :: t, n :: m => (n :: m).isPrefixOf (h :: t) || hasSub t (n :: m)

/-- JS `String.prototype.trim`. -/
def jsTrim (s : Chars) : Chars := ((s.dropWhile isWs).reverse.dropWhile isWs).reverse

def lowerC (s : Chars) : Chars := s.map Char.toLower

/-- model of `/^\s+([^\r\n]+)/g.exec(line)` — the folded-header
continuation regex; returns capture group 1.  The greedy `\s+` takes the
maximal whitespace prefix; if the whole line is whitespace it backtracks
until `[^\r\n]+` can start (which then captures a single character). -/
def contMatch (l : Chars) : Option Chars :=
  let w := l.takeWhile isWs
  if w.isEmpty then none
  else
    let r := l.drop w.length
    if r.isEmpty then
      match l.reverse.dropWhile (fun c => c == '\r' || c == '\n') with
      | c :: _ :: _ => some [c]
      | _ => none
    else some (r.takeWhile notCrlf)

/-- model of `/^([\w\d\-]+):\s*([^\r\n]*)/gi.exec(line)` — the
`Name: value` header regex; returns (name, value). -/
def nameValMatch (l : Chars) : Option (Chars × Chars) :=
  let n := l.takeWhile isHdrChar
  if n.isEmpty then none
  else
    match l.drop n.length with
    | ':' :: rest => some (n, (rest.dropWhile isWs).takeWhile notCrlf)
    | _ => none

/-- model of `/^\-\-([^\r\n]+)(\r?\n)?$/g.exec(line)` — the boundary
marker regex; returns capture group 1 (the token after `--`). -/
def markerMatch (l : Chars) : Option Chars :=
  match l with
  | '-' :: '-' :: rest =>
    let core := rest.takeWhile notCrlf
    let rem := rest.drop core.length
    if core.isEmpty then none
    else if rem.isEmpty || rem == ['\r', '\n'] || rem == ['\n'] then some core
    else none
  | _ => none

/-- `/^multipart\//g.test(ct)`. -/
def multipartTest (ct : Chars) : Bool := ("multipart/".data).isPrefixOf ct

/-- one anchored attempt of `/charset\s*=\W*([\w\-]+)/` at the head of the
string. -/
def getCharsetAt (l : Chars) : Option Chars :=
  if ("charset".data).isPrefixOf l then
    match (l.drop 7).dropWhile isWs with
    | '=' :: a2 =>
      let nw := a2.takeWhile (fun c => !(isWordC c))
      let r := a2.drop nw.length
      let cap := r.takeWhile isHdrChar
      if !cap.isEmpty then some cap
      else
        let dashes := nw.reverse.takeWhile (fun c => c == '-')
        if !dashes.isEmpty then some dashes.reverse else none
    | _ => none
  else none

/-- model of `getCharset`: `/charset\s*=\W*([\w\-]+)/g.exec(contentType)` —
leftmost match wins. -/
def getCharset : Chars → Option Chars
  | [] => none
  | c :: rest => getCharsetAt (c :: rest) <|> getCharset rest

/-- Modelled from the spec: the repository's `getBoundary` utility lives in
the `utils` module, which is not among the provided sources.  Per the spec
(§4.2 "extract its boundary token", §Glossary "delimiter string from a
multipart Content-Type parameter"), it extracts the `boundary=` parameter
value of a Content-Type header, stripping surrounding double quotes. -/
def getBoundary : Chars → Option Chars
  | [] => none
  | c :: rest =>
    if ("boundary=".data).isPrefixOf (c :: rest) then
      match (c :: rest).drop 9 with
      | '"' :: r => some (r.takeWhile (fun d => d != '"'))
      | r => some (r.takeWhile (fun d => d != ';' && d != '"'))
    else getBoundary rest

/-- Modelled from the spec: the repository's `getCharsetName` utility (in
the missing `utils` module).  The spec (§2) says the charset service
"normalizes charset labels" with the example `iso-8859-2` ↦ `iso88592`:
lowercase, keep alphanumerics. -/
def getCharsetName (s : Chars) : Chars := (s.map Char.toLower).filter (·.isAlphanum)

/-- `str.replace(/\r?\n/g, '')`. -/
def stripNewlines : Chars → Chars
  | [] => []
  | '\r' :: '\n' :: r => stripNewlines r
  | '\n' :: r => stripNewlines r
  | c :: r => c :: stripNewlines r

/-! ## Header map

A JS object value under a header name is either a single string or (for a
repeated header) an array of strings.  The map is an insertion-ordered
association list with unique keys, exactly like a JS object with string
keys. -/

inductive HVal where
  | str (v : Chars)
  | list (vs : List Chars)
deriving DecidableEq

/-- JS string coercion of a header value (arrays join with `,`). -/
def hvStr : HVal → Chars
  | .str s => s
  | .list vs => List.intercalate [','] vs

/-- JS truthiness of a header value. -/
def hvTruthy : HVal → Bool
  | .str s => !s.isEmpty
  | .list _ => true

def optTruthy : Option HVal → Bool
  | none => false
  | some v => hvTruthy v

/-- `a || b` on possibly-missing header values. -/
def jsOr (a b : Option HVal) : Option HVal := if optTruthy a then a else b

abbrev Headers := List (Chars × HVal)

def hGet (h : Headers) (k : Chars) : Option HVal :=
  (h.find? (fun p => p.1 == k)).map (·.2)

/-- `obj[k] = v`: overwrite in place, else append (JS objects keep
insertion order). -/
def hSet (h : Headers) (k : Chars) (v : HVal) : Headers :=
  if (h.find? (fun p => p.1 == k)).isSome then
    h.map (fun p => if p.1 == k then (p.1, v) else p)
  else h ++ [(k, v)]

/-- `hay.indexOf(needle) >= 0` where `hay` is a header value: on a string
it is substring containment, on an array it is element membership (JS
`Array.prototype.indexOf`). -/
def hvIndexOfGE0 (v : HVal) (needle : Chars) : Bool
  := match v with
  | .str s => hasSub s needle
  | .list vs => vs.any (· == needle)

/-! ## Part tree -/

mutual
inductive PartObj where
  | mk (headers : Option Headers) (body : Option BodyVal)
inductive BodyVal where
  | str (s : Chars)
  | arr (elems : List BElem)
inductive BElem where
  | str (s : Chars)
  | bnd (b : BoundaryObj)
inductive BoundaryObj where
  | mk (name : Chars) (blines : Option (List Chars)) (part : Option PartVal)
inductive PartVal where
  | str (s : Chars)
  | obj (p : PartObj)
end

def PartObj.headers : PartObj → Option Headers
  | .mk h _ => h

def PartObj.body : PartObj → Option BodyVal
  | .mk _ b => b

def BoundaryObj.name : BoundaryObj → Chars
  | .mk n _ _ => n

def BoundaryObj.blines : BoundaryObj → Option (List Chars)
  | .mk _ l _ => l

def BoundaryObj.part : BoundaryObj → Option PartVal
  | .mk _ _ p => p

/-- `options` object; `parse(eml, cb)` passes `null`, modelled as `none`
at the wrapper level. -/
structure Options where
  headersOnly : Bool := false
deriving DecidableEq

/-- Every way the modelled code can abort.  JS exceptions (explicit
`throw`s and implicit `TypeError`s from `null`/`undefined` dereferences)
become constructors here; `fuelOut` is the model artifact for the
recursion fuel, never reached by the real recursion depths. -/
inductive EmlError where
  /-- `'Argument "eml" expected to be string!'` -/
  | invalidEml
  /-- `TypeError` from `match[1]` when the boundary-marker regex returned
  `null` (line 366/367 of the source): the spec's `MalformedBoundaryMarker`. -/
  | nullMatch
  /-- `"data does't has headers"` -/
  | noHeaders
  /-- `'no data'` -/
  | noData
  /-- generic `TypeError` from a `null`/`undefined` dereference or a
  method call on a value of the wrong runtime type -/
  | typeErr
  /-- `'Missing EML file content!'` -/
  | missingEml
  /-- `URIError` thrown by `decodeURI` -/
  | uriError
  /-- recursion fuel exhausted (model artifact) -/
  | fuelOut
deriving DecidableEq

/-- a body value flowing through `_append`: the JS code passes either a
string or (after a base64 re-encode) a `Uint8Array`. -/
inductive CVal where
  | cstr (s : Chars)
  | cbytes (bs : List Nat)
deriving DecidableEq

/-- External collaborator services, declared out of scope by the spec
(§1, §6): charset codec, Base64 primitive codec, address-list tokenizer,
GB2312 remapper, and the `mimeDecode` helper of the missing `utils`
module.  All theorems quantify over an arbitrary `Svc` unless they are
concrete counterexamples, which use `svcDefault`. -/
structure Svc where
  /-- `decode(bytes-or-string, charset)`; JS iconv also accepts strings,
  and throws on some inputs (unknown charset, `undefined` data), hence
  `Except`. -/
  decodeJs : Option CVal → Chars → Except Unit Chars := fun v _ =>
    match v with
    | some (.cstr s) => .ok s
    | some (.cbytes bs) => .ok (bs.map fun n => Char.ofNat n)
    | none => .error ()
  /-- `encode(text)` via TextEncoder (total). -/
  encodeB : Chars → List Nat := fun s => s.map Char.toNat
  /-- `Base64.fromBase64` (js-base64, fault tolerant). -/
  fromBase64 : Chars → Chars := id
  /-- `Base64.toUint8Array` (js-base64, fault tolerant). -/
  toUint8 : Chars → List Nat := fun s => s.map Char.toNat
  /-- `Base64.decode` (js-base64, fault tolerant). -/
  b64Decode : Chars → Chars := id
  /-- `Base64.atob`; throws on invalid input. -/
  atob : Chars → Except Unit Chars := .ok
  /-- `Base64.btoa`; throws on non-latin1 input. -/
  btoa : Chars → Except Unit Chars := .ok
  /-- `mimeDecode(raw, charset)` from the missing `utils` module (the
  `=HH` translation plus charset decode per spec §4.3); may throw via the
  charset service. -/
  mimeDec : Chars → Chars → Except Unit Chars := fun s _ => .ok s
  /-- GB2312→UTF-8 remapper. -/
  gbToUtf8 : Chars → Chars := id
  /-- `addressparser(raw)`: ordered list of `{name, address}`. -/
  addrParse : Chars → List (Chars × Chars) := fun s =>
    if s.isEmpty then [] else [([], s)]

def svcDefault : Svc := {}

/-! ## RFC 2047 encoded-word machinery (`decodeJoint` / `unquoteString`) -/

/-- lazy payload of `(.+?)(\?=)`: shortest non-empty `.`-only (no CR/LF)
prefix followed by `?=`; returns (payload, rest after the `?=`). -/
def ewPay : Chars → Option (Chars × Chars)
  | c :: '?' :: '=' :: tl =>
    if notCrlf c then some ([c], tl)
    else none
  | c :: rest =>
    if notCrlf c then (ewPay rest).map (fun p => (c :: p.1, p.2))
    else none
  | [] => none

/-- one anchored attempt of `/=\?([^?]+)\?(B|Q)\?(.+?)(\?=)/gi`:
returns (whole match, charset, B or Q letter, payload, rest of input). -/
def ewAt (l : Chars) : Option (Chars × Chars × Char × Chars × Chars) :=
  match l with
  | '=' :: '?' :: r =>
    let cs := r.takeWhile (fun c => c != '?')
    if cs.isEmpty then none
    else
      match r.drop cs.length with
      | '?' :: ty :: '?' :: rest =>
        if ty == 'B' || ty == 'b' || ty == 'Q' || ty == 'q' then
          match ewPay rest with
          | some (pay, tl) =>
            some ('=' :: '?' :: cs ++ '?' :: ty :: '?' :: pay ++ ['?', '='],
                  cs, ty, pay, tl)
          | none => none
        else none
      | _ => none
  | _ => none

/-- all (non-overlapping, leftmost-first) matches of the encoded-word
regex, as `str.match(/.../gi)` produces; fuel is the string length, ample
because every step consumes at least one character. -/
def findEWsAux : Nat → Chars → List (Chars × Chars × Char × Chars)
  | 0, _ => []
  | _ + 1, [] => []
  | n + 1, c :: rest =>
    match ewAt (c :: rest) with
    | some (whole, cs, ty, pay, tl) => (whole, cs, ty, pay) :: findEWsAux n tl
    | none => findEWsAux n rest

def findEWs (l : Chars) : List (Chars × Chars × Char × Chars) :=
  findEWsAux l.length l

/-- `str.replace(pattern, replacement)` with a *string* pattern: replace
the first occurrence.  (The `$`-substitution of JS replacement strings is
not modelled; the replacements produced here are decoded header text.) -/
def replaceFirst (hay pat rep : Chars) : Chars :=
  match hay, pat with
  | h, [] => rep ++ h
  | [], _ :: _ => []
  | h :: t, p :: q =>
    if (p :: q).isPrefixOf (h :: t) then rep ++ (h :: t).drop (p :: q).length
    else h :: replaceFirst t (p :: q) rep

/-! ## `unquotePrintable` -/

/-- `value.replace(/[\t ]+$/gm, '')`: in multiline mode `$` sits before
each `\n` (a preceding `\r` is an ordinary character and blocks the
match), so strip the maximal run of tabs/spaces at the end of each
`\n`-separated segment. -/
def stripTrailWs (v : Chars) : Chars :=
  List.intercalate ['\n']
    ((v.splitOn '\n').map fun seg =>
      (seg.reverse.dropWhile (fun c => c == ' ' || c == '\t')).reverse)

/-- `.replace(/=(?:\r?\n|$)/g, '')`: remove soft line breaks and a
trailing `=`. -/
def rmSoftBreaks : Chars → Chars
  | [] => []
  | ['='] => []
  | '=' :: '\r' :: '\n' :: r => rmSoftBreaks r
  | '=' :: '\n' :: r => rmSoftBreaks r
  | c :: r => c :: rmSoftBreaks r

/-- substitute every `_` by the given replacement
(`rawString.replace(/_/g, decode([0x20], charset))`). -/
def replUnderscore (rep : Chars) : Chars → Chars
  | [] => []
  | '_' :: r => rep ++ replUnderscore rep r
  | c :: r => c :: replUnderscore rep r

/-- `unquotePrintable(value, charset, qEncoding)`. -/
def unquotePrintable (svc : Svc) (value : Chars) (charset : Chars)
    (qEncoding : Bool) : Except Unit Chars := do
  let raw := rmSoftBreaks (stripTrailWs value)
  let raw ← if qEncoding then do
      let sp ← svc.decodeJs (some (.cbytes [0x20])) charset
      pure (replUnderscore sp raw)
    else pure raw
  svc.mimeDec raw charset

/-! ## `decodeJoint` / `unquoteString` -/

/-- `decodeJoint(str)`: decode one encoded-word joint; a string that does
not match the regex passes through unchanged. -/
def decodeJoint (svc : Svc) (str : Chars) : Except Unit Chars :=
  match ewAt' str with
  | some (cs, ty, pay) =>
    let charset := getCharsetName cs
    if ty == 'B' || ty == 'b' then
      if charset == "utf8".data then
        svc.decodeJs (some (.cbytes (svc.encodeB (svc.fromBase64 (stripNewlines pay)))))
          ("utf8".data)
      else
        svc.decodeJs (some (.cbytes (svc.toUint8 (stripNewlines pay)))) charset
    else
      unquotePrintable svc pay charset true
  | none => .ok str
where
  /-- `exec` with no anchor: leftmost match of the encoded-word regex. -/
  ewAt' (l : Chars) : Option (Chars × Char × Chars) :=
    match findEWs l with
    | [] => none
    | (_, cs, ty, pay) :: _ => some (cs, ty, pay)

/-- `unquoteString(str)`: locate every encoded-word, decode and substitute
each in place, then strip raw line breaks from the final string. -/
def unquoteString (svc : Svc) (str : Chars) : Except Unit Chars := do
  let ms := findEWs str
  let dec ← ms.foldlM (fun (acc : Chars) m => do
      let rep ← decodeJoint svc m.1
      pure (replaceFirst acc m.1 rep)) str
  pure (stripNewlines dec)

/-! ## addresses -/

structure EmailAddress where
  name : Chars
  email : Chars
deriving DecidableEq

/-- `getEmailAddress` result: `null`, a single record, or an array. -/
inductive AddrOut where
  | nullA
  | one (a : EmailAddress)
  | many (as : List EmailAddress)
deriving DecidableEq

/-- `getEmailAddress(raw)`; a non-string raw value (repeated header →
array) makes `unquoteString` call `.match` on an array: `TypeError`. -/
def getEmailAddress (svc : Svc) (v : HVal) : Except EmlError AddrOut :=
  match v with
  | .list _ => .error .typeErr
  | .str s =>
    match unquoteString svc s with
    | .error _ => .error .typeErr
    | .ok raw =>
      let list := (svc.addrParse raw).map (fun p => EmailAddress.mk p.1 p.2)
      match list with
      | [] => .ok .nullA
      | [a] => .ok (.one a)
      | _ => .ok (.many list)

/-! ## `decodeURI` (ECMAScript built-in used on the attachment name) -/

def hexVal (c : Char) : Option Nat :=
  if '0' ≤ c ∧ c ≤ '9' then some (c.toNat - '0'.toNat)
  else if 'a' ≤ c ∧ c ≤ 'f' then some (c.toNat - 'a'.toNat + 10)
  else if 'A' ≤ c ∧ c ≤ 'F' then some (c.toNat - 'A'.toNat + 10)
  else none

/-- the escapes `decodeURI` leaves encoded: `uriReserved ∪ {#}`. -/
def uriReserved (c : Char) : Bool :=
  c == ';' || c == '/' || c == '?' || c == ':' || c == '@' || c == '&' ||
  c == '=' || c == '+' || c == '$' || c == ',' || c == '#'

/-- read one `%HH` escape byte. -/
def uriByte : Chars → Option (Nat × Chars)
  | '%' :: h1 :: h2 :: rest =>
    match hexVal h1, hexVal h2 with
    | some a, some b => some (16 * a + b, rest)
    | _, _ => none
  | _ => none

/-- `decodeURI(s)`: percent-escapes are decoded as UTF-8 sequences except
for the reserved set, which stays literal; a malformed escape or an
invalid UTF-8 sequence throws `URIError`.  The fuel (first argument) is
the string length; every recursive call consumes at least one character. -/
def jsDecodeURIAux : Nat → Chars → Except Unit Chars
  | 0, [] => .ok []
  | 0, _ :: _ => .error ()
  | _ + 1, [] => .ok []
  | fl + 1, '%' :: h1 :: h2 :: rest => do
    match hexVal h1, hexVal h2 with
    | some a, some b =>
      let n := 16 * a + b
      if n < 0x80 then do
        let tl ← jsDecodeURIAux fl rest
        let c := Char.ofNat n
        if uriReserved c then pure ('%' :: h1 :: h2 :: tl)
        else pure (c :: tl)
      else if 0xc2 ≤ n ∧ n ≤ 0xdf then
        match uriByte rest with
        | some (b1, r1) =>
          if 0x80 ≤ b1 ∧ b1 ≤ 0xbf then do
            let tl ← jsDecodeURIAux fl r1
            pure (Char.ofNat ((n - 0xc0) * 64 + (b1 - 0x80)) :: tl)
          else .error ()
        | none => .error ()
      else if 0xe0 ≤ n ∧ n ≤ 0xef then
        match uriByte rest with
        | some (b1, r1) =>
          match uriByte r1 with
          | some (b2, r2) =>
            if (0x80 ≤ b1 ∧ b1 ≤ 0xbf) ∧ (0x80 ≤ b2 ∧ b2 ≤ 0xbf) then
              let cp := (n - 0xe0) * 4096 + (b1 - 0x80) * 64 + (b2 - 0x80)
              if cp < 0x800 ∨ (0xd800 ≤ cp ∧ cp ≤ 0xdfff) then .error ()
              else do
                let tl ← jsDecodeURIAux fl r2
                pure (Char.ofNat cp :: tl)
            else .error ()
          | none => .error ()
        | none => .error ()
      else if 0xf0 ≤ n ∧ n ≤ 0xf4 then
        match uriByte rest with
        | some (b1, r1) =>
          match uriByte r1 with
          | some (b2, r2) =>
            match uriByte r2 with
            | some (b3, r3) =>
              if (0x80 ≤ b1 ∧ b1 ≤ 0xbf) ∧ (0x80 ≤ b2 ∧ b2 ≤ 0xbf) ∧
                 (0x80 ≤ b3 ∧ b3 ≤ 0xbf) then
                let cp := (n - 0xf0) * 262144 + (b1 - 0x80) * 4096 +
                          (b2 - 0x80) * 64 + (b3 - 0x80)
                if cp < 0x10000 ∨ 0x10ffff < cp then .error ()
                else do
                  let tl ← jsDecodeURIAux fl r3
                  pure (Char.ofNat cp :: tl)
              else .error ()
            | none => .error ()
          | none => .error ()
        | none => .error ()
      else .error ()
    | _, _ => .error ()
  | fl + 1, c :: rest => do
    let tl ← jsDecodeURIAux fl rest
    pure (c :: tl)

def jsDecodeURI (s : Chars) : Except Unit Chars := jsDecodeURIAux s.length s

/-! ## attachment metadata helpers of `_append` -/

/-- the global strip `/(\s|'|utf-8|\*[0-9]\*)/g` applied to a candidate
name header before splitting. -/
def nameClean : Chars → Chars
  | [] => []
  | 'u' :: 't' :: 'f' :: '-' :: '8' :: r => nameClean r
  | '*' :: d :: '*' :: r =>
    if d.isDigit then nameClean r else '*' :: nameClean (d :: '*' :: r)
  | c :: r =>
    if isWs c || c == Char.ofNat 39 then nameClean r else c :: nameClean r

/-- lazy capture of `(.+?)"?$`: the shortest non-empty `.`-only capture,
i.e. everything up to an optional single trailing quote. -/
def lazyCap (t : Chars) : Option Chars :=
  if t.isEmpty then none
  else
    let cand := if t.getLast? == some '"' && 2 ≤ t.length then t.dropLast else t
    if cand.all notCrlf then some cand else none

/-- one anchored attempt of `/name[\*]?="?(.+?)"?$/gi`. -/
def nameParamAt (l : Chars) : Option Chars :=
  if (l.take 4).map Char.toLower == "name".data then
    let r0 := l.drop 4
    let r1 := match r0 with
      | '*' :: t => t
      | _ => r0
    match r1 with
    | '=' :: r2 =>
      (match r2 with
       | '"' :: r3 => lazyCap r3 <|> lazyCap r2
       | _ => lazyCap r2)
    | _ => none
  else none

/-- leftmost match of the `name=` parameter regex inside one `;`-segment. -/
def nameParamScan : Chars → Option Chars
  | [] => none
  | c :: r => nameParamAt (c :: r) <|> nameParamScan r

/-- full candidate-name extraction from one header value: strip, split on
`;`, match each segment, concatenate every capture (the `reduce`). -/
def extractName (v : Chars) : Chars :=
  (((nameClean v).splitOn ';').map nameParamScan).foldl
    (fun a b => match b with
      | some c => a ++ c
      | none => a) []

/-- `/^\s*inline/g.test(cd)`. -/
def inlineTest (cd : Chars) : Bool :=
  ("inline".data).isPrefixOf (cd.dropWhile isWs)

/-- one anchored attempt of `/size\s*=\s*([0-9]+)/gi`. -/
def sizeParamAt (l : Chars) : Option Chars :=
  if (l.take 4).map Char.toLower == "size".data then
    match (l.drop 4).dropWhile isWs with
    | '=' :: r2 =>
      let ds := (r2.dropWhile isWs).takeWhile Char.isDigit
      if ds.isEmpty then none else some ds
    | _ => none
  else none

def sizeParamScan : Chars → Option Chars
  | [] => none
  | c :: r => sizeParamAt (c :: r) <|> sizeParamScan r

def digitsToNat (ds : Chars) : Nat :=
  ds.foldl (fun a c => a * 10 + (c.toNat - '0'.toNat)) 0

/-- `parseInt(sizeRegexMatches?.[1] ?? '0')`. -/
def sizeOfCd (cd : Chars) : Nat :=
  digitsToNat ((sizeParamScan cd).getD ['0'])

/-- `.replace(/^<|>$/g, '')`: strip one leading `<` and one trailing `>`,
independently. -/
def stripAngles (s : Chars) : Chars :=
  let s1 := match s with
    | '<' :: r => r
    | _ => s
  match s1.getLast? with
  | some '>' => s1.dropLast
  | _ => s1

/-- `.replace(/\r\n|(&quot;)/g, '')` (the follow-up `/\"/g → '"'` replace
is the identity). -/
def stripCrlfQuot : Chars → Chars
  | '\r' :: '\n' :: r => stripCrlfQuot r
  | '&' :: 'q' :: 'u' :: 'o' :: 't' :: ';' :: r => stripCrlfQuot r
  | c :: r => c :: stripCrlfQuot r
  | [] => []

/-! ## `parseRecursive` (the top-down boundary/multipart parser)

The imperative loop becomes a step function over an explicit state
record.  The currently open `boundary` object (the JS local aliased into
`parent.body`) is held in `PSt.bvar`; its resolved form is appended to
the finished prefix of the body array at completion time, mirroring the
in-place mutation of the object sitting last in the JS array. -/

/-- the `boundary` local of `parseRecursive`: `{boundary, lines}`,
`lines` deleted on completion. -/
structure BVar where
  name : Chars
  blines : Option (List Chars)

/-- the body under construction. -/
inductive BodySt where
  | bstr (s : Chars)
  | barr (fin : List BElem)

structure PSt where
  headers : Headers := []
  body : Option BodySt := none
  bvar : Option BVar := none
  lastHeaderName : Chars := []
  findBoundary : Chars := []
  insideBody : Bool := false
  insideBoundary : Bool := false
  isMultiHeader : Bool := false
  isMultipart : Bool := false
  checkedForCt : Bool := false
  ctInBody : Bool := false

inductive StepRes where
  | cont (st : PSt)
  | halt (st : PSt)

/-- `complete(boundary)`: recurse into the collected lines (via `cf`, the
parser at one less fuel) and produce the resolved array element. -/
def completeOpen (cf : List Chars → Except EmlError PartObj) (b : BVar) :
    Except EmlError BElem :=
  match b.blines with
  | none => .error .typeErr
  | some ls => do
    let p ← cf ls
    pure (.bnd (.mk b.name none (some (.obj p))))

def pushElem : Option BodySt → BElem → Option BodySt
  | some (.barr fin), e => some (.barr (fin ++ [e]))
  | b, _ => b

/-- header continuation: `headers[last] += '\r\n' + capture` (with the
multi-header variant writing into the last array slot).  The unreachable
mismatches between `isMultiHeader` and the stored shape are modelled by
what the JS would do there (strict-mode `TypeError` on a string index
write / property write past the array end is invisible in the tree). -/
def contAppend (st : PSt) (r : Chars) : Except EmlError PSt :=
  let key := st.lastHeaderName
  if st.isMultiHeader then
    match hGet st.headers key with
    | some (.list vs) =>
      match vs.getLast? with
      | some lastv =>
        let h2 := hSet st.headers key (.list (vs.dropLast ++ [lastv ++ crlf ++ r]))
        pure { st with headers := h2 }
      | none => pure st
    | some (.str _) => .error .typeErr
    | none => .error .typeErr
  else
    match hGet st.headers key with
    | some (.str s) =>
      pure { st with headers := hSet st.headers key (.str (s ++ crlf ++ r)) }
    | some (.list vs) =>
      let h2 := hSet st.headers key (.str (hvStr (.list vs) ++ crlf ++ r))
      pure { st with headers := h2 }
    | none =>
      let h2 := hSet st.headers key (.str ("undefined".data ++ crlf ++ r))
      pure { st with headers := h2 }

/-- a `Name: value` header line: create, or promote to a list when the
name is already present with a truthy value. -/
def nameValStep (st : PSt) (n v : Chars) : PSt :=
  let st := { st with lastHeaderName := n }
  if optTruthy (hGet st.headers n) then
    let st := { st with isMultiHeader := true }
    match hGet st.headers n with
    | some (.str s) => { st with headers := hSet st.headers n (.list [s, v]) }
    | some (.list vs) => { st with headers := hSet st.headers n (.list (vs ++ [v])) }
    | none => st
  else
    { st with isMultiHeader := false, headers := hSet st.headers n (.str v) }

/-- the blank line ending the header section: enter the body, optionally
stop (`headersOnly`), recover when Content-Type is found further down, or
set up multipart mode from the boundary parameter. -/
def blankLineStep (opts : Options) (st : PSt) (l : Chars) (rest : List Chars) :
    StepRes :=
  let st := { st with insideBody := true }
  if opts.headersOnly then .halt st
  else
    let ct := jsOr (hGet st.headers ("Content-Type".data))
                   (hGet st.headers ("Content-type".data))
    if !optTruthy ct then
      if st.checkedForCt then .cont { st with insideBody := !st.ctInBody }
      else
        let st := { st with checkedForCt := true }
        let s := jsTrim (joinCRLF (l :: rest))
        if ("Content-Type".data).isPrefixOf s || ("Content-type".data).isPrefixOf s then
          .cont { st with insideBody := false, ctInBody := true }
        else .cont st
    else
      match ct with
      | some v =>
        if multipartTest (hvStr v) then
          match getBoundary (hvStr v) with
          | some b =>
            if !b.isEmpty then
              .cont { st with findBoundary := b, isMultipart := true,
                              body := some (.barr []) }
            else .cont st
          | none => .cont st
        else .cont st
      | none => .cont st

/-- one iteration of the `parseRecursive` line loop. -/
def step (cf : List Chars → Except EmlError PartObj) (opts : Options)
    (st : PSt) (prev : Option Chars) (l : Chars) (rest : List Chars) :
    Except EmlError StepRes :=
  if !st.insideBody then
    if l.isEmpty then pure (blankLineStep opts st l rest)
    else
      match contMatch l with
      | some r => do
        let st ← contAppend st r
        pure (.cont st)
      | none =>
        match nameValMatch l with
        | some (n, v) => pure (.cont (nameValStep st n v))
        | none => pure (.cont st)
  else
    if st.isMultipart then
      let startTok := '-' :: '-' :: st.findBoundary
      let endTok := startTok ++ ['-', '-']
      if startTok.isPrefixOf l && !endTok.isPrefixOf l then do
        let st := { st with insideBoundary := true }
        let st ← (match st.bvar with
          | some b =>
            match b.blines with
            | some _ => do
              let e ← completeOpen cf b
              pure { st with body := pushElem st.body e }
            | none => pure st
          | none => pure st)
        match markerMatch l with
        | none => .error .nullMatch
        | some m => pure (.cont { st with bvar := some ⟨m, some []⟩ })
      else if st.insideBoundary then
        let bTruthy := match st.bvar with
          | some b => !b.name.isEmpty
          | none => false
        if bTruthy && prev == some [] && endTok.isPrefixOf l then
          match st.bvar with
          | some b => do
            let e ← completeOpen cf b
            pure (.cont { st with insideBoundary := false,
                                  body := pushElem st.body e,
                                  bvar := some ⟨b.name, none⟩ })
          | none => pure (.cont st)
        else if bTruthy && endTok.isPrefixOf l then pure (.cont st)
        else
          match st.bvar with
          | none => pure (.cont st)
          | some b =>
            match b.blines with
            | none => .error .typeErr
            | some ls => pure (.cont { st with bvar := some ⟨b.name, some (ls ++ [l])⟩ })
      else pure (.cont st)
    else pure (.halt { st with body := some (.bstr (joinCRLF (l :: rest))) })

def pLoop (cf : List Chars → Except EmlError PartObj) (opts : Options) :
    PSt → Option Chars → List Chars → Except EmlError PSt
  | st, _, [] => pure st
  | st, prev, l :: rest => do
    match ← step cf opts st prev l rest with
    | .cont st' => pLoop cf opts st' (some l) rest
    | .halt st' => pure st'

/-- the trailing `//Complete the last boundary` plus assembling the
returned node. -/
def finalizeSt (cf : List Chars → Except EmlError PartObj) (st : PSt) :
    Except EmlError PartObj :=
  match st.body with
  | some (.barr fin) =>
    (match st.bvar with
     | some b =>
       match b.blines with
       | some _ => do
         let e ← completeOpen cf b
         pure (.mk (some st.headers) (some (.arr (fin ++ [e]))))
       | none => pure (.mk (some st.headers) (some (.arr fin)))
     | none => pure (.mk (some st.headers) (some (.arr fin))))
  | some (.bstr s) => pure (.mk (some st.headers) (some (.str s)))
  | none => pure (.mk (some st.headers) none)

/-- `parseRecursive(lines, 0, {}, options)`, with fuel bounding the
nesting depth (one fuel unit per `complete` recursion; the nesting depth
is at most the number of lines). -/
def parseRec : Nat → Options → List Chars → Except EmlError PartObj
  | 0, _, _ => .error .fuelOut
  | f + 1, opts, lines => do
    let st ← pLoop (parseRec f opts) opts {} none lines
    finalizeSt (parseRec f opts) st

def parseLines (opts : Options) (lines : List Chars) : Except EmlError PartObj :=
  parseRec (lines.length + 1) opts lines

/-! ## public `parse` -/

/-- a JS argument as `parse`/`read` receive it. -/
inductive JsIn where
  | jstr (s : Chars)
  | jobj (p : PartObj)
  | jnull
  | other

/-- `parse(eml, options)` success/error outcome.  `opts = none` models a
`null`/omitted/function options argument; after the source's
argument-shift and `typeof` normalization, every such value behaves as a
falsy `headersOnly`. -/
def parseOutcome (eml : JsIn) (opts : Option Options) : Except EmlError PartObj :=
  match eml with
  | .jstr s => parseLines (opts.getD {}) (splitLines s)
  | _ => .error .invalidEml

/-- `parse` with a callback attached: the list of `(error, result)`
invocations (the partially mutated result object passed on the error path
is abstracted to `none`; no theorem inspects it), together with the
returned value `error || result`. -/
def parseWithCb (eml : JsIn) (opts : Option Options) :
    List (Option EmlError × Option PartObj) × Except EmlError PartObj :=
  match parseOutcome eml opts with
  | .ok p => ([(none, some p)], .ok p)
  | .error e => ([(some e, none)], .error e)

/-! ## `read`: extraction pass -/

structure Attachment where
  contentId : Option Chars := none
  name : Option Chars := none
  contentType : Option HVal := none
  inline : Option Bool := none
  size : Option Nat := none
deriving DecidableEq

structure ReadedEml where
  date : Option HVal := none
  subject : Option Chars := none
  fromA : Option AddrOut := none
  toA : Option AddrOut := none
  cc : Option AddrOut := none
  rheaders : Option Headers := none
  text : Option Chars := none
  html : Option Chars := none
  textheaders : Option Headers := none
  htmlheaders : Option Headers := none
  attachments : Option (List Attachment) := none
  multipartAlternative : Option HVal := none
  dataStr : Option Chars := none
deriving DecidableEq

def ctKey : Chars := "Content-Type".data
def ctKey2 : Chars := "Content-type".data
def cdKey : Chars := "Content-Disposition".data
def cteKey : Chars := "Content-Transfer-Encoding".data
def cteKey2 : Chars := "Content-transfer-encoding".data

/-- the `size=`/`inline` fields and the name search of the attachment
branch, in source order.  Throws like the JS would on array-valued
Content-ID / name headers and on a `decodeURI` failure. -/
def mkAttachment (headers : Headers) : Except EmlError Attachment := do
  let a : Attachment := {}
  -- Content-ID
  let cidRaw := jsOr (hGet headers ("Content-ID".data)) (hGet headers ("Content-Id".data))
  let a ← (match cidRaw with
    | some (.list _) => .error .typeErr
    | some (.str s) =>
      let cid := stripAngles s
      if cid.isEmpty then pure a else pure { a with contentId := some cid }
    | none => pure a)
  -- candidate name, fixed priority order
  let nameOf : Option HVal → Except EmlError (Option Chars) := fun v =>
    match v with
    | some (.list _) => .error .typeErr
    | some (.str s) =>
      let rn := extractName s
      if rn.isEmpty then pure none else pure (some rn)
    | none => pure none
  let keyVal : Chars → Option HVal := fun k =>
    match hGet headers k with
    | some v => if hvTruthy v then some v else none
    | none => none
  let rn ← (match keyVal cdKey with
    | some v => do
      match ← nameOf (some v) with
      | some rn => pure (some rn)
      | none => (do
          match keyVal ctKey with
          | some v2 => do
            match ← nameOf (some v2) with
            | some rn => pure (some rn)
            | none =>
              match keyVal ctKey2 with
              | some v3 => nameOf (some v3)
              | none => pure none
          | none =>
            match keyVal ctKey2 with
            | some v3 => nameOf (some v3)
            | none => pure none)
    | none => do
      match keyVal ctKey with
      | some v2 => do
        match ← nameOf (some v2) with
        | some rn => pure (some rn)
        | none =>
          match keyVal ctKey2 with
          | some v3 => nameOf (some v3)
          | none => pure none
      | none =>
        match keyVal ctKey2 with
        | some v3 => nameOf (some v3)
        | none => pure none)
  let a ← (match rn with
    | some rn =>
      match jsDecodeURI rn with
      | .ok d => pure { a with name := some d }
      | .error _ => .error .uriError
    | none => pure a)
  -- contentType
  let ct := jsOr (hGet headers ctKey) (hGet headers ctKey2)
  let a := if optTruthy ct then { a with contentType := ct } else a
  -- Content-Disposition derived fields
  let cd := hGet headers cdKey
  let a := (match cd with
    | some v =>
      if hvTruthy v then
        { a with inline := some (inlineTest (hvStr v)), size := some (sizeOfCd (hvStr v)) }
      else a
    | none => a)
  pure a

/-- `_append(headers, content, result)`. -/
def appendB (svc : Svc) (hOpt : Option Headers) (content : Option CVal)
    (r : ReadedEml) : Except EmlError ReadedEml := do
  match hOpt with
  | none => .error .typeErr
  | some headers =>
    let contentType := jsOr (hGet headers ctKey) (hGet headers ctKey2)
    let contentDisposition := hGet headers cdKey
    let charset := getCharsetName
      (((contentType.map hvStr).bind getCharset).getD ("utf-8".data))
    let encoding0 := jsOr (hGet headers cteKey) (hGet headers cteKey2)
    let encoding := match encoding0 with
      | some (.str s) => some (HVal.str (lowerC s))
      | x => x
    let isB64 := encoding == some (.str ("base64".data))
    let isQP := encoding == some (.str ("quoted-printable".data))
    -- content-transfer-encoding normalization
    let content ← (if isB64 then
        match content with
        | some (.cstr s) =>
          match contentType with
          | some ctv =>
            if hvTruthy ctv && hvIndexOfGE0 ctv ("gbk".data) then
              pure (some (CVal.cbytes (svc.encodeB (svc.gbToUtf8 (stripNewlines s)))))
            else pure (some (CVal.cbytes (svc.encodeB (stripNewlines s))))
          | none => pure (some (CVal.cbytes (svc.encodeB (stripNewlines s))))
        | _ => .error .typeErr
      else if isQP then
        match content with
        | some (.cstr s) =>
          match unquotePrintable svc s charset false with
          | .ok d => pure (some (CVal.cstr d))
          | .error _ => .error .typeErr
        | _ => .error .typeErr
      else if optTruthy encoding && charset != ("utf8".data) then
        match encoding with
        | some (.list _) => .error .typeErr
        | some (.str s) =>
          if ("binary".data).isPrefixOf s || ("8bit".data).isPrefixOf s then
            match svc.decodeJs content charset with
            | .ok d => pure (some (CVal.cstr d))
            | .error _ => .error .typeErr
          else pure content
        | none => pure content
      else pure content)
    -- dispatch
    let cdFalsy := !optTruthy contentDisposition
    let ctv := contentType.getD (.str [])
    if cdFalsy && optTruthy contentType && hvIndexOfGE0 ctv ("text/html".data) then do
      let s ← (match content with
        | some (.cstr s) => pure s
        | v =>
          match svc.decodeJs v charset with
          | .ok d => pure d
          | .error _ => .error EmlError.typeErr)
      let htmlContent := stripCrlfQuot s
      let htmlContent := if isB64 then svc.b64Decode htmlContent
        else
          match svc.atob htmlContent with
          | .ok dec =>
            (match svc.btoa dec with
             | .ok reenc => if reenc == htmlContent then dec else htmlContent
             | .error _ => htmlContent)
          | .error _ => htmlContent
      let hh : Headers :=
        [(ctKey, ctv), (cteKey, (jsOr encoding (some (.str []))).getD (.str []))]
      pure { r with html := some ((r.html.getD []) ++ htmlContent),
                    htmlheaders := some hh }
    else if cdFalsy && optTruthy contentType && hvIndexOfGE0 ctv ("text/plain".data) then do
      let s ← (match content with
        | some (.cstr s) => pure s
        | v =>
          match svc.decodeJs v charset with
          | .ok d => pure d
          | .error _ => .error EmlError.typeErr)
      let s := if isB64 then svc.b64Decode s else s
      let th : Headers :=
        [(ctKey, ctv), (cteKey, (jsOr encoding (some (.str []))).getD (.str []))]
      pure { r with text := some ((r.text.getD []) ++ s),
                    textheaders := some th }
    else do
      let atts := r.attachments.getD []
      let a ← mkAttachment headers
      pure { r with attachments := some (atts ++ [a]) }

/-- a nested part body handed to `_append` as `content`; an array body
reaching `_append` (only possible from hand-built trees) behaves like an
`undefined`/foreign value and is abstracted to `none`. -/
def bodyAsCVal : Option BodyVal → Option CVal
  | some (.str s) => some (.cstr s)
  | some (.arr _) => none
  | none => none

/-- dispatch of the innermost `content.forEach(bound => _append(...))`. -/
def readInnerBound (svc : Svc) (r : ReadedEml) (bound : BElem) :
    Except EmlError ReadedEml :=
  match bound with
  | .str _ => .error .typeErr
  | .bnd bb =>
    match bb.part with
    | none => .error .typeErr
    | some (.str _) => appendB svc none none r
    | some (.obj qq) => appendB svc qq.headers (bodyAsCVal qq.body) r

/-- one `selfBoundary` of the one-level-deep nested loop. -/
def readSelfBoundary (svc : Svc) (r : ReadedEml) (se : BElem) :
    Except EmlError ReadedEml :=
  match se with
  | .str s => pure { r with dataStr := some s }
  | .bnd sb =>
    match sb.part with
    | none => .error .typeErr
    | some (.str _) => appendB svc none none r
    | some (.obj q) =>
      match q.body with
      | some (.arr content) => content.foldlM (readInnerBound svc) r
      | other => appendB svc q.headers (bodyAsCVal other) r

/-- one `boundaryBlock` of the root boundary loop. -/
def readElem (svc : Svc) (r : ReadedEml) (e : BElem) : Except EmlError ReadedEml :=
  match e with
  | .str _ => pure r
  | .bnd b =>
    match b.part with
    | none => pure r
    | some (.str s) => pure { r with dataStr := some s }
    | some (.obj p) =>
      match p.body with
      | none => pure r
      | some (.str s) => appendB svc p.headers (some (.cstr s)) r
      | some (.arr inner) =>
        match p.headers with
        | none => .error .typeErr
        | some ch => do
          let cct := jsOr (hGet ch ctKey) (hGet ch ctKey2)
          let r := if optTruthy cct && hvIndexOfGE0 (cct.getD (.str [])) ("multipart".data)
                      && r.multipartAlternative.isNone
            then { r with multipartAlternative := cct } else r
          inner.foldlM (readSelfBoundary svc) r

/-- `unquoteString(headers[k])` as used on Subject (array value →
`.match` on an array → `TypeError`). -/
def unquoteHVal (svc : Svc) (v : HVal) : Except EmlError Chars :=
  match v with
  | .list _ => .error .typeErr
  | .str s =>
    match unquoteString svc s with
    | .ok d => pure d
    | .error _ => .error .typeErr

/-- the `Date`/`Subject`/`From`/`To`/`CC`/`Cc` scalar-field section of
`_read`, in source order, followed by `result.headers = data.headers`. -/
def readScalars (svc : Svc) (hs : Headers) : Except EmlError ReadedEml := do
  let r : ReadedEml := {}
  let r ← (match hGet hs ("Date".data) with
    | some v => if hvTruthy v then pure { r with date := some v } else pure r
    | none => pure r)
  let r ← (match hGet hs ("Subject".data) with
    | some v =>
      if hvTruthy v then do
        let s ← unquoteHVal svc v
        pure { r with subject := some s }
      else pure r
    | none => pure r)
  let r ← (match hGet hs ("From".data) with
    | some v =>
      if hvTruthy v then do
        let a ← getEmailAddress svc v
        pure { r with fromA := some a }
      else pure r
    | none => pure r)
  let r ← (match hGet hs ("To".data) with
    | some v =>
      if hvTruthy v then do
        let a ← getEmailAddress svc v
        pure { r with toA := some a }
      else pure r
    | none => pure r)
  let r ← (match hGet hs ("CC".data) with
    | some v =>
      if hvTruthy v then do
        let a ← getEmailAddress svc v
        pure { r with cc := some a }
      else pure r
    | none => pure r)
  let r ← (match hGet hs ("Cc".data) with
    | some v =>
      if hvTruthy v then do
        let a ← getEmailAddress svc v
        pure { r with cc := some a }
      else pure r
    | none => pure r)
  pure { r with rheaders := some hs }

/-- `_read(data)`. -/
def readTree (svc : Svc) (data : PartObj) : Except EmlError ReadedEml := do
  match data.headers with
  | none => .error .noHeaders
  | some hs => do
    let r ← readScalars svc hs
    -- content mime type
    let ct := jsOr (hGet hs ctKey) (hGet hs ctKey2)
    let boundary : Option Chars :=
      if optTruthy ct && multipartTest (hvStr (ct.getD (.str []))) then
        match getBoundary (hvStr (ct.getD (.str []))) with
        | some b => if !b.isEmpty then some b else none
        | none => none
      else none
    match data.body with
    | some (.arr elems) =>
      if boundary.isSome then elems.foldlM (readElem svc) r else pure r
    | some (.str s) => appendB svc (some hs) (some (.cstr s)) r
    | none => pure r

/-- `read(eml, options)` success/error outcome. -/
def readOutcome (svc : Svc) (eml : JsIn) (opts : Option Options) :
    Except EmlError ReadedEml :=
  match eml with
  | .jstr s =>
    match parseOutcome (.jstr s) opts with
    | .error e => .error e
    | .ok p => readTree svc p
  | .jobj p => readTree svc p
  | .jnull => .error .noData
  | .other => .error .missingEml

/-- `read` with a callback attached, like `parseWithCb`. -/
def readWithCb (svc : Svc) (eml : JsIn) (opts : Option Options) :
    List (Option EmlError × Option ReadedEml) × Except EmlError ReadedEml :=
  match readOutcome svc eml opts with
  | .ok p => ([(none, some p)], .ok p)
  | .error e => ([(some e, none)], .error e)

/-! ## `completeBoundary` (the bottom-up per-boundary resolver) -/

/-- `BoundaryRawData`: `{boundary, lines}` as handed to `completeBoundary`. -/
structure BRaw where
  name : Chars
  blines : Option (List Chars)

structure CBSt where
  headers : Headers := []
  lastHeaderName : Chars := []
  insideBody : Bool := false
  /-- the `childBoundary` local: name and collected lines. -/
  child : Option (Chars × List Chars) := none
  body : Option BodyVal := none

/-- `if (Array.isArray(result.part.body)) push else body = [child]`. -/
def pushBodyVal : Option BodyVal → BElem → Option BodyVal
  | some (.arr es), e => some (.arr (es ++ [e]))
  | _, e => some (.arr [e])

/-- the `+=` on `result.part.headers[lastHeaderName]` (value shapes other
than a plain string cannot arise in this loop, but are modelled as the JS
coercions would behave). -/
def cbContAppend (st : CBSt) (r : Chars) : CBSt :=
  let key := st.lastHeaderName
  match hGet st.headers key with
  | some (.str s) => { st with headers := hSet st.headers key (.str (s ++ crlf ++ r)) }
  | some (.list vs) =>
    { st with headers := hSet st.headers key (.str (hvStr (.list vs) ++ crlf ++ r)) }
  | none =>
    { st with headers := hSet st.headers key (.str ("undefined".data ++ crlf ++ r)) }

/-- the `completeBoundary` line loop; `cf` is the recursive call at one
less fuel. -/
def cbLoop (cf : BRaw → Except EmlError (Option BoundaryObj)) :
    CBSt → Option Chars → List Chars → Except EmlError CBSt
  | st, _, [] => pure st
  | st, prev, l :: rest =>
    if !st.insideBody then
      if l.isEmpty then cbLoop cf { st with insideBody := true } (some l) rest
      else
        match nameValMatch l with
        | some (n, v) =>
          cbLoop cf { st with lastHeaderName := n,
                              headers := hSet st.headers n (.str v) } (some l) rest
        | none =>
          match contMatch l with
          | some r => cbLoop cf (cbContAppend st r) (some l) rest
          | none => cbLoop cf st (some l) rest
    else
      let m := markerMatch l
      let cbs := ((jsOr (hGet st.headers ctKey) (hGet st.headers ctKey2)).map hvStr).bind
        getBoundary
      let childStr : Chars :=
        '-' :: '-' :: (match cbs with
          | some s => s
          | none => "undefined".data)
      if m.isSome && childStr.isPrefixOf l && st.child.isNone then
        cbLoop cf { st with child := some (m.getD [], []) } (some l) rest
      else
        match st.child with
        | some (cn, clns) =>
          if !cn.isEmpty then
            if prev == some ([] : Chars) && ('-' :: '-' :: cn).isPrefixOf l then do
              let child ← cf ⟨cn, some clns⟩
              let st := (match child with
                | some cobj => { st with body := pushBodyVal st.body (.bnd cobj) }
                | none => { st with body := some (.str (joinCRLF clns)) })
              match rest with
              | nxt :: _ =>
                if !nxt.isEmpty then
                  cbLoop cf { st with child := some (cn, []) } (some l) rest
                else if (('-' :: '-' :: cn) ++ ['-', '-']).isPrefixOf l && nxt.isEmpty then
                  pure { st with child := none }
                else cbLoop cf { st with child := some (cn, clns ++ [l]) } (some l) rest
              | [] => cbLoop cf { st with child := some (cn, clns ++ [l]) } (some l) rest
            else cbLoop cf { st with child := some (cn, clns ++ [l]) } (some l) rest
          else pure { st with body := some (.str (joinCRLF (l :: rest))) }
        | none => pure { st with body := some (.str (joinCRLF (l :: rest))) }

/-- `completeBoundary(boundary)` with recursion fuel. -/
def completeBoundaryF : Nat → BRaw → Except EmlError (Option BoundaryObj)
  | 0, _ => .error .fuelOut
  | f + 1, b =>
    if b.name.isEmpty then pure none
    else do
      let st ← cbLoop (completeBoundaryF f) {} none (b.blines.getD [])
      pure (some (.mk b.name none (some (.obj (.mk (some st.headers) st.body)))))

/-! ## small projections used by concrete statements -/

/-- number of elements of an array body (`none` for other shapes). -/
def bodyArrLen : Option BodyVal → Option Nat
  | some (.arr es) => some es.length
  | _ => none

/-- the headers of the part inside a resolved boundary. -/
def cbPartHeaders : Option BoundaryObj → Option Headers
  | some (.mk _ _ (some (.obj p))) => p.headers
  | _ => none

/-- a completion function that is never called (for step-level statements). -/
def cfNone : List Chars → Except EmlError PartObj := fun _ => .error .fuelOut

/-! # Theorems settling the claims -/

theorem exceptBindOk {α β : Type} {x : Except EmlError α} {f : α → Except EmlError β}
    {y : β} : x >>= f = .ok y ↔ ∃ a, x = .ok a ∧ f a = .ok y := by
  cases x <;> simp [Bind.bind, Except.bind]

instance {ε α : Type} [DecidableEq ε] [DecidableEq α] : DecidableEq (Except ε α) :=
  fun a b =>
    match a, b with
    | .ok x, .ok y =>
      match decEq x y with
      | isTrue h => isTrue (by rw [h])
      | isFalse h => isFalse (by intro hc; cases hc; exact h rfl)
    | .error x, .error y =>
      match decEq x y with
      | isTrue h => isTrue (by rw [h])
      | isFalse h => isFalse (by intro hc; cases hc; exact h rfl)
    | .ok _, .error _ => isFalse (by intro hc; cases hc)
    | .error _, .ok _ => isFalse (by intro hc; cases hc)

theorem contMatch_ne_nil {l : Chars} {r : Chars} (h : contMatch l = some r) :
    l.isEmpty = false := by
  cases l with
  | nil => simp [contMatch] at h
  | cons c cs => rfl

/-! ## C2 -/

/-- **C2.**  For every input and every optional callback, `parse` and
`read` return either a success value or an error value (all JS throws are
caught and surfaced as values), and the attached callback is invoked
exactly once, with the `(error, result)` pair mirrored by the returned
value: the return is the error when one is present, else the result. -/
theorem C2_callback_mirror (svc : Svc) (eml : JsIn) (opts : Option Options) :
    ((∃ e, parseWithCb eml opts = ([(some e, none)], .error e)) ∨
      (∃ p, parseWithCb eml opts = ([(none, some p)], .ok p))) ∧
    ((∃ e, readWithCb svc eml opts = ([(some e, none)], .error e)) ∨
      (∃ p, readWithCb svc eml opts = ([(none, some p)], .ok p))) := by
  constructor
  · cases h : parseOutcome eml opts with
    | error e => exact Or.inl ⟨e, by simp [parseWithCb, h]⟩
    | ok p => exact Or.inr ⟨p, by simp [parseWithCb, h]⟩
  · cases h : readOutcome svc eml opts with
    | error e => exact Or.inl ⟨e, by simp [readWithCb, h]⟩
    | ok p => exact Or.inr ⟨p, by simp [readWithCb, h]⟩

/-! ## C9 -/

/-- **C9 counterexample.**  `"a\nb"` contains no RFC 2047 encoded-word,
yet `unquoteString` does not return it unchanged: the final
`.replace(/\r?\n/g, '')` strips the line break. -/
theorem C9_counterexample :
    findEWs ("a\nb".data) = [] ∧
    unquoteString svcDefault ("a\nb".data) = .ok ("ab".data) ∧
    ("ab".data : Chars) ≠ "a\nb".data := by decide

/-- **C9 amended.**  For every string with no encoded-word match,
header-value decoding returns the string unchanged except that raw line
breaks (`\n` and `\r\n`) are removed. -/
theorem C9_amended (svc : Svc) (s : Chars) (h : findEWs s = []) :
    unquoteString svc s = .ok (stripNewlines s) := by
  unfold unquoteString
  rw [h]
  rfl

theorem C9_amended_witness :
    findEWs ("plain subject".data) = [] ∧
    unquoteString svcDefault ("plain subject".data) =
      .ok (stripNewlines ("plain subject".data)) :=
  ⟨by decide, C9_amended svcDefault _ (by decide)⟩

/-! ## C3 -/

def c3input : Chars :=
  ("Content-Type: multipart/mixed; boundary=B\r\n--B\r\nX: y\r\n\r\nbody\r\n--B--").data

/-- **C3 counterexample.**  On the claim's own input — headers followed
immediately (no blank line) by `--B\r\nX: y\r\n\r\nbody\r\n--B--` — the
boundary `B` is *not* recognized: the `--B` line is consumed while the
parser is still scanning headers (boundary markers are only recognized
after a blank line has ended the header section), `X: y` becomes a root
header, and the resulting body is an empty boundary list with no resolved
part. -/
theorem C3_counterexample :
    (parseOutcome (.jstr c3input) none).map (fun p => bodyArrLen p.body) =
      .ok (some 0) ∧
    (parseOutcome (.jstr c3input) none).map
      (fun p => p.headers.bind (fun hs => hGet hs ['X'])) =
      .ok (some (.str ['y'])) := by decide

/-- **C3 amended.**  Once the parser is inside a multipart body, a line
beginning with `--boundary` but not `--boundary--` starts a new part
whatever the immediately preceding line is — blank or not (the state
`prev` is arbitrary); recognizing the marker requires only that the
header section has already ended. -/
theorem C3_amended (cf : List Chars → Except EmlError PartObj) (opts : Options)
    (st : PSt) (prev : Option Chars) (l : Chars) (rest : List Chars) (m : Chars)
    (hin : st.insideBody = true) (hmp : st.isMultipart = true)
    (hbv : st.bvar = none)
    (hpre : (('-' :: '-' :: st.findBoundary)).isPrefixOf l = true)
    (hnend : ('-' :: '-' :: (st.findBoundary ++ ['-', '-'])).isPrefixOf l = false)
    (hm : markerMatch l = some m) :
    step cf opts st prev l rest =
      .ok (.cont { st with insideBoundary := true, bvar := some ⟨m, some []⟩ }) := by
  unfold step
  simp [hin, hmp, hbv, hpre, hnend, hm, pure, Except.pure, Bind.bind, Except.bind]

def c3wSt : PSt :=
  { insideBody := true, isMultipart := true, findBoundary := ['B'],
    body := some (.barr []) }

theorem C3_amended_witness :
    step cfNone {} c3wSt (some ("body".data)) ("--B".data) [] =
      .ok (.cont { c3wSt with insideBoundary := true, bvar := some ⟨['B'], some []⟩ }) :=
  C3_amended cfNone {} c3wSt (some ("body".data)) ("--B".data) [] ['B']
    rfl rfl rfl (by decide) (by decide) (by decide)

/-! ## C6 -/

def c6st1 : PSt := { lastHeaderName := ['A'], headers := [(['A'], .str ['x'])] }

def c6st2 : PSt := { lastHeaderName := ['A'], headers := [(['A'], .str [])] }

/-- the value stored under `A` after one header-mode scan step. -/
def stepHdrA (st : PSt) (l : Chars) : Option HVal :=
  match step cfNone {} st none l [] with
  | .ok (.cont st') => hGet st'.headers ['A']
  | _ => none

/-- **C6 counterexample.**  (i) A continuation line `" v "` appends
`"\r\nv "` — the leading whitespace is stripped but the trailing
whitespace is kept, so the appended text is not the *trimmed* remainder.
(ii) A repeated `Name: value` line whose name already exists with an
*empty* value does not promote the existing value to a list: the empty
string is falsy, so the header is simply overwritten. -/
theorem C6_counterexample :
    (stepHdrA c6st1 (" v ".data) = some (.str ("x\r\nv ".data)) ∧
      stepHdrA c6st1 (" v ".data) ≠ some (.str ("x\r\nv".data))) ∧
    (stepHdrA c6st2 ("A: y".data) = some (.str ['y']) ∧
      stepHdrA c6st2 ("A: y".data) ≠ some (.list [[], ['y']])) := by decide

/-- **C6 amended.**  During header parsing: a physical line starting with
whitespace appends `\r\n` plus its remainder — stripped of leading
whitespace and truncated at the first CR, trailing whitespace kept — to
the most recently seen header (to the last element when that header is a
list); and a `Name: value` line whose name already exists *with a truthy
(non-empty string or list) value* promotes the string to a list and
appends (a previously stored empty value is overwritten instead). -/
theorem C6_amended (cf : List Chars → Except EmlError PartObj) (opts : Options)
    (st : PSt) (prev : Option Chars) (l : Chars) (rest : List Chars)
    (r n v s : Chars) (vs : List Chars)
    (hin : st.insideBody = false) :
    (contMatch l = some r → st.isMultiHeader = false →
      hGet st.headers st.lastHeaderName = some (.str s) →
      step cf opts st prev l rest = .ok (.cont { st with
        headers := hSet st.headers st.lastHeaderName (.str (s ++ crlf ++ r)) })) ∧
    (contMatch l = some r → st.isMultiHeader = true →
      hGet st.headers st.lastHeaderName = some (.list (vs ++ [s])) →
      step cf opts st prev l rest = .ok (.cont { st with
        headers := hSet st.headers st.lastHeaderName (.list (vs ++ [s ++ crlf ++ r])) })) ∧
    (contMatch l = none → nameValMatch l = some (n, v) →
      hGet st.headers n = some (.str s) → s ≠ [] →
      step cf opts st prev l rest = .ok (.cont { st with
        lastHeaderName := n, isMultiHeader := true,
        headers := hSet st.headers n (.list [s, v]) })) ∧
    (contMatch l = none → nameValMatch l = some (n, v) →
      hGet st.headers n = some (.list vs) →
      step cf opts st prev l rest = .ok (.cont { st with
        lastHeaderName := n, isMultiHeader := true,
        headers := hSet st.headers n (.list (vs ++ [v])) })) := by
  refine ⟨?_, ?_, ?_, ?_⟩
  · intro hc hmh hv
    unfold step
    simp [hin, contMatch_ne_nil hc, hc, contAppend, hmh, hv,
      pure, Except.pure, Bind.bind, Except.bind]
  · intro hc hmh hv
    unfold step
    simp [hin, contMatch_ne_nil hc, hc, contAppend, hmh, hv,
      pure, Except.pure, Bind.bind, Except.bind]
  · intro hc hnv hv hs
    have hne : l.isEmpty = false := by
      rcases hnv0 : nameValMatch l with _ | p
      · rw [hnv0] at hnv; cases hnv
      · cases l with
        | nil => simp [nameValMatch] at hnv0
        | cons a as => rfl
    unfold step
    simp [hin, hne, hc, hnv, nameValStep, hv, optTruthy, hvTruthy, hs,
      pure, Except.pure]
  · intro hc hnv hv
    have hne : l.isEmpty = false := by
      cases l with
      | nil => simp [nameValMatch] at hnv
      | cons a as => rfl
    unfold step
    simp [hin, hne, hc, hnv, nameValStep, hv, optTruthy, hvTruthy,
      pure, Except.pure]

def c6wSt : PSt :=
  { lastHeaderName := ['A'],
    headers := [(['A'], .str ['x']), (['B'], .list [['p'], ['q']])] }

theorem C6_amended_witness :
    (step cfNone {} c6wSt none ("  more".data) [] = .ok (.cont { c6wSt with
        headers := hSet c6wSt.headers ['A'] (.str ("x\r\nmore".data)) })) ∧
    (step cfNone {} { c6wSt with isMultiHeader := true, lastHeaderName := ['B'] }
        none ("  more".data) [] = .ok (.cont { c6wSt with
          isMultiHeader := true, lastHeaderName := ['B'],
          headers := hSet c6wSt.headers ['B'] (.list [['p'], 'q' :: crlf ++ "more".data]) })) ∧
    (step cfNone {} c6wSt none ("A: 2".data) [] = .ok (.cont { c6wSt with
        isMultiHeader := true,
        headers := hSet c6wSt.headers ['A'] (.list [['x'], ['2']]) })) ∧
    (step cfNone {} c6wSt none ("B: r".data) [] = .ok (.cont { c6wSt with
        lastHeaderName := ['B'], isMultiHeader := true,
        headers := hSet c6wSt.headers ['B'] (.list [['p'], ['q'], ['r']]) })) := by
  refine ⟨?_, ?_, ?_, ?_⟩
  · exact (C6_amended cfNone {} c6wSt none ("  more".data) [] ("more".data)
      [] [] ['x'] [] rfl).1 (by decide) rfl (by decide)
  · exact (C6_amended cfNone {} { c6wSt with isMultiHeader := true, lastHeaderName := ['B'] }
      none ("  more".data) [] ("more".data) [] [] ['q'] [['p']] rfl).2.1
      (by decide) rfl (by decide)
  · exact (C6_amended cfNone {} c6wSt none ("A: 2".data) [] [] ['A'] ['2'] ['x'] []
      rfl).2.2.1 (by decide) (by decide) (by decide) (by decide)
  · exact (C6_amended cfNone {} c6wSt none ("B: r".data) [] [] ['B'] ['r'] []
      [['p'], ['q']] rfl).2.2.2 (by decide) (by decide) (by decide)

/-! ## C5 -/

theorem markerMatch_cr (t : Chars) (hne : t ≠ ['\n']) :
    markerMatch ('-' :: '-' :: 'B' :: '\r' :: t) = none := by
  have hb : (t == ['\n']) = false := by
    rwa [beq_eq_false_iff_ne]
  simp [markerMatch, List.takeWhile, notCrlf, hb]

/-- a boundary-start line whose marker regex fails aborts the scan with
the `nullMatch` error (`match[1]` on `null`). -/
theorem step_badMarker (cf : List Chars → Except EmlError PartObj) (opts : Options)
    (st : PSt) (prev : Option Chars) (l : Chars) (rest : List Chars)
    (hin : st.insideBody = true) (hmp : st.isMultipart = true)
    (hbv : st.bvar = none)
    (hpre : (('-' :: '-' :: st.findBoundary)).isPrefixOf l = true)
    (hnend : ('-' :: '-' :: (st.findBoundary ++ ['-', '-'])).isPrefixOf l = false)
    (hm : markerMatch l = none) :
    step cf opts st prev l rest = .error .nullMatch := by
  unfold step
  simp [hin, hmp, hbv, hpre, hnend, hm, pure, Except.pure, Bind.bind, Except.bind]

/-- state after scanning the Content-Type header line of the C5 family. -/
def c5st1 : PSt :=
  { headers := [("Content-Type".data, .str ("multipart/mixed; boundary=B".data))],
    lastHeaderName := "Content-Type".data }

/-- state after the blank line: multipart mode armed with boundary `B`. -/
def c5st2 : PSt :=
  { c5st1 with insideBody := true, findBoundary := ['B'], isMultipart := true,
               body := some (.barr []) }

/-- **C5.**  For every multipart input whose body holds a boundary-start
line that the marker regex cannot parse (here the family
`--B\r<t>`: it starts with `--B`, is not a closing marker, and the stray
CR makes `/^\-\-([^\r\n]+)(\r?\n)?$/` fail, except in the lines-cannot-
happen case `t = "\n"`), the parse aborts deterministically with the
`nullMatch` error — the model of the spec's `MalformedBoundaryMarker`
(the `TypeError` thrown by `match[1]` on the `null` match, caught by
`parse` and returned as its error value); no tree with a missing marker
is ever produced. -/
theorem C5_malformed_marker (t : Chars) (rest : List (List Char))
    (hne : t ≠ ['\n']) :
    parseLines {}
      (("Content-Type: multipart/mixed; boundary=B".data) :: ([] : Chars) ::
        (('-' :: '-' :: 'B' :: '\r' :: t) :: rest)) = .error .nullMatch := by
  have key : ∀ f : Nat, parseRec (f + 1) {}
      (("Content-Type: multipart/mixed; boundary=B".data) :: ([] : Chars) ::
        (('-' :: '-' :: 'B' :: '\r' :: t) :: rest)) = .error .nullMatch := by
    intro f
    set cf := parseRec f ({} : Options) with hcf
    have h3 : step cf {} c5st2 (some []) ('-' :: '-' :: 'B' :: '\r' :: t) rest =
        .error .nullMatch :=
      step_badMarker cf {} c5st2 (some []) _ rest rfl rfl rfl rfl rfl
        (markerMatch_cr t hne)
    have e3 : pLoop cf {} c5st2 (some ([] : Chars))
        (('-' :: '-' :: 'B' :: '\r' :: t) :: rest) = .error .nullMatch := by
      unfold pLoop
      rw [h3]
      rfl
    have e2 : pLoop cf {} c5st1 (some ("Content-Type: multipart/mixed; boundary=B".data))
        (([] : Chars) :: (('-' :: '-' :: 'B' :: '\r' :: t) :: rest)) =
        pLoop cf {} c5st2 (some ([] : Chars))
          (('-' :: '-' :: 'B' :: '\r' :: t) :: rest) := rfl
    have e1 : pLoop cf {} {} none
        (("Content-Type: multipart/mixed; boundary=B".data) :: ([] : Chars) ::
          (('-' :: '-' :: 'B' :: '\r' :: t) :: rest)) =
        pLoop cf {} c5st1 (some ("Content-Type: multipart/mixed; boundary=B".data))
          (([] : Chars) :: (('-' :: '-' :: 'B' :: '\r' :: t) :: rest)) := rfl
    show (do
      let st ← pLoop cf {} {} none
        (("Content-Type: multipart/mixed; boundary=B".data) :: ([] : Chars) ::
          (('-' :: '-' :: 'B' :: '\r' :: t) :: rest))
      finalizeSt cf st) = .error .nullMatch
    rw [e1, e2, e3]
    rfl
  exact key _

theorem C5_malformed_marker_witness :
    (("x".data : Chars) ≠ ['\n']) ∧
    parseLines {}
      (("Content-Type: multipart/mixed; boundary=B".data) :: ([] : Chars) ::
        [('-' :: '-' :: 'B' :: '\r' :: "x".data)]) = .error .nullMatch :=
  ⟨by decide, C5_malformed_marker ("x".data) [] (by decide)⟩

/-! ## the scalar-field section: shared characterization -/

theorem readScalars_spec (svc : Svc) (hs : Headers) (r : ReadedEml)
    (h : readScalars svc hs = .ok r) :
    r.text = none ∧ r.attachments = none ∧ r.html = none ∧ r.rheaders = some hs ∧
    (∀ v2 a, hGet hs ("Cc".data) = some (.str v2) → v2 ≠ [] →
      getEmailAddress svc (.str v2) = .ok a → r.cc = some a) ∧
    (hGet hs ("CC".data) = none → hGet hs ("Cc".data) = none → r.cc = none) := by
  simp only [readScalars] at h
  rw [exceptBindOk] at h
  obtain ⟨r1, h1, h⟩ := h
  rw [exceptBindOk] at h
  obtain ⟨r2, h2, h⟩ := h
  rw [exceptBindOk] at h
  obtain ⟨r3, h3, h⟩ := h
  rw [exceptBindOk] at h
  obtain ⟨r4, h4, h⟩ := h
  rw [exceptBindOk] at h
  obtain ⟨r5, h5, h⟩ := h
  rw [exceptBindOk] at h
  obtain ⟨r6, h6, h⟩ := h
  have hr : r = { r6 with rheaders := some hs } := by
    simp only [pure, Except.pure, Except.ok.injEq] at h
    exact h.symm
  have p1 : r1.text = none ∧ r1.attachments = none ∧ r1.html = none ∧ r1.cc = none := by
    rcases hd : hGet hs ("Date".data) with _ | v <;> rw [hd] at h1
    · simp only [pure, Except.pure, Except.ok.injEq] at h1
      subst h1; exact ⟨rfl, rfl, rfl, rfl⟩
    · cases htv : hvTruthy v <;>
        simp only [htv, Bool.false_eq_true, ite_false, ite_true, pure,
          Except.pure, Except.ok.injEq] at h1 <;>
        subst h1 <;> exact ⟨rfl, rfl, rfl, rfl⟩
  have p2 : r2.text = none ∧ r2.attachments = none ∧ r2.html = none ∧ r2.cc = none := by
    rcases hd : hGet hs ("Subject".data) with _ | v <;> rw [hd] at h2
    · simp only [pure, Except.pure, Except.ok.injEq] at h2
      subst h2; exact p1
    · cases htv : hvTruthy v
      · simp only [htv, Bool.false_eq_true, ite_false, pure, Except.pure,
          Except.ok.injEq] at h2
        subst h2; exact p1
      · simp only [htv, ite_true] at h2
        rw [exceptBindOk] at h2
        obtain ⟨s, _, h2⟩ := h2
        simp only [pure, Except.pure, Except.ok.injEq] at h2
        subst h2
        exact ⟨p1.1, p1.2.1, p1.2.2.1, p1.2.2.2⟩
  have p3 : r3.text = none ∧ r3.attachments = none ∧ r3.html = none ∧ r3.cc = none := by
    rcases hd : hGet hs ("From".data) with _ | v <;> rw [hd] at h3
    · simp only [pure, Except.pure, Except.ok.injEq] at h3
      subst h3; exact p2
    · cases htv : hvTruthy v
      · simp only [htv, Bool.false_eq_true, ite_false, pure, Except.pure,
          Except.ok.injEq] at h3
        subst h3; exact p2
      · simp only [htv, ite_true] at h3
        rw [exceptBindOk] at h3
        obtain ⟨a, _, h3⟩ := h3
        simp only [pure, Except.pure, Except.ok.injEq] at h3
        subst h3
        exact ⟨p2.1, p2.2.1, p2.2.2.1, p2.2.2.2⟩
  have p4 : r4.text = none ∧ r4.attachments = none ∧ r4.html = none ∧ r4.cc = none := by
    rcases hd : hGet hs ("To".data) with _ | v <;> rw [hd] at h4
    · simp only [pure, Except.pure, Except.ok.injEq] at h4
      subst h4; exact p3
    · cases htv : hvTruthy v
      · simp only [htv, Bool.false_eq_true, ite_false, pure, Except.pure,
          Except.ok.injEq] at h4
        subst h4; exact p3
      · simp only [htv, ite_true] at h4
        rw [exceptBindOk] at h4
        obtain ⟨a, _, h4⟩ := h4
        simp only [pure, Except.pure, Except.ok.injEq] at h4
        subst h4
        exact ⟨p3.1, p3.2.1, p3.2.2.1, p3.2.2.2⟩
  have p5 : r5.text = none ∧ r5.attachments = none ∧ r5.html = none := by
    rcases hd : hGet hs ("CC".data) with _ | v <;> rw [hd] at h5
    · simp only [pure, Except.pure, Except.ok.injEq] at h5
      subst h5; exact ⟨p4.1, p4.2.1, p4.2.2.1⟩
    · cases htv : hvTruthy v
      · simp only [htv, Bool.false_eq_true, ite_false, pure, Except.pure,
          Except.ok.injEq] at h5
        subst h5; exact ⟨p4.1, p4.2.1, p4.2.2.1⟩
      · simp only [htv, ite_true] at h5
        rw [exceptBindOk] at h5
        obtain ⟨a, _, h5⟩ := h5
        simp only [pure, Except.pure, Except.ok.injEq] at h5
        subst h5
        exact ⟨p4.1, p4.2.1, p4.2.2.1⟩
  have p6 : r6.text = none ∧ r6.attachments = none ∧ r6.html = none := by
    rcases hd : hGet hs ("Cc".data) with _ | v <;> rw [hd] at h6
    · simp only [pure, Except.pure, Except.ok.injEq] at h6
      subst h6; exact p5
    · cases htv : hvTruthy v
      · simp only [htv, Bool.false_eq_true, ite_false, pure, Except.pure,
          Except.ok.injEq] at h6
        subst h6; exact p5
      · simp only [htv, ite_true] at h6
        rw [exceptBindOk] at h6
        obtain ⟨a, _, h6⟩ := h6
        simp only [pure, Except.pure, Except.ok.injEq] at h6
        subst h6
        exact p5
  subst hr
  refine ⟨p6.1, p6.2.1, p6.2.2, rfl, ?_, ?_⟩
  · intro v2 a hCc hv2 hga
    rw [hCc] at h6
    have htv : hvTruthy (.str v2) = true := by
      simp [hvTruthy, hv2]
    simp only [htv, ite_true] at h6
    rw [exceptBindOk] at h6
    obtain ⟨a2, hga2, h6⟩ := h6
    rw [hga] at hga2
    cases hga2
    simp only [pure, Except.pure, Except.ok.injEq] at h6
    subst h6
    rfl
  · intro hCC hCc
    have q5 : r5.cc = r4.cc := by
      rw [hCC] at h5
      simp only [pure, Except.pure, Except.ok.injEq] at h5
      subst h5; rfl
    rw [hCc] at h6
    simp only [pure, Except.pure, Except.ok.injEq] at h6
    subst h6
    rw [q5]
    exact p4.2.2.2

/-! ## C1 -/

def c1input : Chars := "X: y\r\n\r\nHello".data

/-- **C1 counterexample.**  A single-part message with no Content-Type
and no Content-Transfer-Encoding: `read` does *not* place the body into
`text` (the `text/plain` dispatch requires a truthy Content-Type); the
body is dispatched to the attachment branch instead. -/
theorem C1_counterexample :
    (readOutcome svcDefault (.jstr c1input) none).map ReadedEml.text = .ok none ∧
    (readOutcome svcDefault (.jstr c1input) none).map ReadedEml.text ≠
      .ok (some ("Hello".data)) ∧
    (readOutcome svcDefault (.jstr c1input) none).map
      (fun r => (r.attachments.getD []).length) = .ok 1 ∧
    (parseOutcome (.jstr c1input) none).map
      (fun p => match p.body with
        | some (.str b) => some b
        | _ => none) = .ok (some ("Hello".data)) := by decide

/-- **C1 amended.**  For every parsed single part whose headers contain
no Content-Type (either case spelling) and no Content-Transfer-Encoding,
whenever `read` succeeds it leaves `text` unset and instead appends the
part as the single entry of `attachments` (the body is not placed into
`text` verbatim). -/
theorem C1_amended (svc : Svc) (H : Headers) (s : Chars) (r : ReadedEml)
    (h1 : hGet H ctKey = none) (h2 : hGet H ctKey2 = none)
    (h3 : hGet H cteKey = none) (h4 : hGet H cteKey2 = none)
    (hok : readOutcome svc (.jobj (.mk (some H) (some (.str s)))) none = .ok r) :
    r.text = none ∧ ∃ a, r.attachments = some [a] := by
  simp only [readOutcome, readTree, PartObj.headers, PartObj.body] at hok
  rw [exceptBindOk] at hok
  obtain ⟨r0, hsc, hok⟩ := hok
  obtain ⟨ht, hat, _, _, _, _⟩ := readScalars_spec svc H r0 hsc
  -- the walk hit the solid-string arm: `_append(headers, body, result)`
  unfold appendB at hok
  simp only [h1, h2, h3, h4, jsOr, optTruthy, Bool.false_and, Bool.and_false,
    ite_false, ite_true, Bool.false_eq_true, Bind.bind, Except.bind, pure,
    Except.pure] at hok
  simp only [show ((none : Option HVal) ==
      some (HVal.str ['b', 'a', 's', 'e', '6', '4'])) = false from rfl,
    show ((none : Option HVal) ==
      some (HVal.str ['q', 'u', 'o', 't', 'e', 'd', '-', 'p', 'r', 'i', 'n',
        't', 'a', 'b', 'l', 'e'])) = false from rfl,
    Bool.false_eq_true, ite_false] at hok
  cases hma : mkAttachment H with
  | error e => rw [hma] at hok; cases hok
  | ok a =>
    rw [hma] at hok
    simp only [Except.ok.injEq] at hok
    subst hok
    rw [hat]
    exact ⟨ht, a, rfl⟩

def c1wTree : PartObj := .mk (some [(['X'], .str ['y'])]) (some (.str ("Hello".data)))

def c1wRes : ReadedEml :=
  match readOutcome svcDefault (.jobj c1wTree) none with
  | .ok r => r
  | .error _ => {}

theorem C1_amended_witness :
    hGet [(['X'], HVal.str ['y'])] ctKey = none ∧
    readOutcome svcDefault (.jobj c1wTree) none = .ok c1wRes ∧
    c1wRes.text = none ∧ ∃ a, c1wRes.attachments = some [a] := by
  refine ⟨by decide, by decide, ?_⟩
  exact C1_amended svcDefault [(['X'], .str ['y'])] ("Hello".data) c1wRes
    (by decide) (by decide) (by decide) (by decide) (by decide)

/-! ## C10 -/

def c10tree1 : PartObj :=
  .mk (some [("CC".data, .str ("a@b".data)), ("Cc".data, .str [])]) none

/-- **C10 counterexample.**  A structure whose root headers contain both
`CC` (non-empty) and `Cc` (empty string): the claim says `cc` is set from
the `Cc` value, but the empty string is falsy, so the `Cc` assignment is
skipped and the earlier `CC` assignment survives. -/
theorem C10_counterexample :
    (readOutcome svcDefault (.jobj c10tree1) none).map ReadedEml.cc =
      .ok (some (.one ⟨[], "a@b".data⟩)) ∧
    getEmailAddress svcDefault (.str []) = .ok .nullA ∧
    (some (AddrOut.one ⟨[], "a@b".data⟩) : Option AddrOut) ≠ some .nullA := by
  decide

/-- **C10 amended.**  When the root headers hold both `CC` and `Cc` and
the `Cc` value is a non-empty string, `read` sets `cc` from the `Cc`
value (the later assignment overwrites the earlier `CC` one); and a
carbon-copy header stored under any other case spelling (e.g. `cc`, when
neither `CC` nor `Cc` is present) is ignored, leaving `cc` unset. -/
theorem C10_amended (svc : Svc) (hs1 hs2 : Headers) (v1 v2 : Chars) (a : AddrOut)
    (r1 r2 : ReadedEml)
    (h1 : hGet hs1 ("CC".data) = some (.str v1))
    (h2 : hGet hs1 ("Cc".data) = some (.str v2)) (hv2 : v2 ≠ [])
    (hga : getEmailAddress svc (.str v2) = .ok a)
    (hok1 : readOutcome svc (.jobj (.mk (some hs1) none)) none = .ok r1)
    (hcc1 : hGet hs2 ("CC".data) = none) (hcc2 : hGet hs2 ("Cc".data) = none)
    (hok2 : readOutcome svc (.jobj (.mk (some hs2) none)) none = .ok r2) :
    r1.cc = some a ∧ r2.cc = none := by
  simp only [readOutcome, readTree, PartObj.headers, PartObj.body] at hok1 hok2
  rw [exceptBindOk] at hok1 hok2
  obtain ⟨q1, hq1, he1⟩ := hok1
  obtain ⟨q2, hq2, he2⟩ := hok2
  simp only [pure, Except.pure, Except.ok.injEq] at he1 he2
  subst he1
  subst he2
  constructor
  · exact (readScalars_spec svc hs1 q1 hq1).2.2.2.2.1 v2 a h2 hv2 hga
  · exact (readScalars_spec svc hs2 q2 hq2).2.2.2.2.2 hcc1 hcc2

def c10hs1 : Headers := [("CC".data, .str ("x@y".data)), ("Cc".data, .str ("a@b".data))]

def c10hs2 : Headers := [("cc".data, .str ("a@b".data))]

def c10w1 : ReadedEml :=
  match readOutcome svcDefault (.jobj (.mk (some c10hs1) none)) none with
  | .ok r => r
  | .error _ => {}

def c10w2 : ReadedEml :=
  match readOutcome svcDefault (.jobj (.mk (some c10hs2) none)) none with
  | .ok r => r
  | .error _ => {}

theorem C10_amended_witness :
    getEmailAddress svcDefault (.str ("a@b".data)) = .ok (.one ⟨[], "a@b".data⟩) ∧
    readOutcome svcDefault (.jobj (.mk (some c10hs1) none)) none = .ok c10w1 ∧
    readOutcome svcDefault (.jobj (.mk (some c10hs2) none)) none = .ok c10w2 ∧
    c10w1.cc = some (.one ⟨[], "a@b".data⟩) ∧ c10w2.cc = none := by
  refine ⟨by decide, by decide, by decide, ?_⟩
  exact C10_amended svcDefault c10hs1 c10hs2 ("x@y".data) ("a@b".data)
    (.one ⟨[], "a@b".data⟩) c10w1 c10w2 (by decide) (by decide) (by decide)
    (by decide) (by decide) (by decide) (by decide) (by decide)

/-! ## C8 -/

def c8bEml : Chars :=
  ("Content-Type: multipart/mixed; boundary=B\r\n\r\n--B\r\nContent-Type: application/pdf\r\n\r\nDATA\r\n--B--").data

/-- **C8 counterexample.**  A part dispatched as an attachment whose
headers have *no* Content-Disposition: the claim says `size` defaults to
0 when the `size=` parameter is absent, but the whole `inline`/`size`
block is guarded by the presence of Content-Disposition, so `size` (and
`inline`) stay unset rather than defaulting. -/
theorem C8_counterexample :
    (readOutcome svcDefault (.jstr c8bEml) none).map
      (fun r => (r.attachments.getD []).map Attachment.size) = .ok [none] ∧
    (readOutcome svcDefault (.jstr c8bEml) none).map
      (fun r => (r.attachments.getD []).map Attachment.size) ≠ .ok [some 0] ∧
    (readOutcome svcDefault (.jstr c8bEml) none).map
      (fun r => (r.attachments.getD []).map Attachment.inline) = .ok [none] := by
  decide

/-- an auxiliary fact: a non-empty list is not `isEmpty`. -/
theorem isEmpty_false_of_ne_nil {l : Chars} (h : l ≠ []) : l.isEmpty = false := by
  cases hl : l with
  | nil => exact absurd hl h
  | cons x xs => rfl

/-- characterization of the attachment record built by `_append` when
Content-Disposition, Content-Type and Content-ID are all present as
truthy strings and the name extraction from Content-Disposition
succeeds. -/
theorem mkAttachment_spec (hs : Headers) (cd ctv cid nd : Chars)
    (hcd : hGet hs cdKey = some (.str cd)) (hcdT : cd ≠ [])
    (hct : jsOr (hGet hs ctKey) (hGet hs ctKey2) = some (.str ctv)) (hctT : ctv ≠ [])
    (hcid : jsOr (hGet hs ("Content-ID".data)) (hGet hs ("Content-Id".data)) =
      some (.str cid))
    (hcidT : stripAngles cid ≠ [])
    (hname : extractName cd ≠ [])
    (hdec : jsDecodeURI (extractName cd) = .ok nd) :
    mkAttachment hs = .ok
      { contentId := some (stripAngles cid), name := some nd,
        contentType := some (.str ctv), inline := some (inlineTest cd),
        size := some (sizeOfCd cd) } := by
  unfold mkAttachment
  simp only [hcd, hct, hcid, hdec, isEmpty_false_of_ne_nil hcidT,
    isEmpty_false_of_ne_nil hname, isEmpty_false_of_ne_nil hcdT,
    isEmpty_false_of_ne_nil hctT, hvTruthy, hvStr, optTruthy, Bool.not_false,
    Bool.false_eq_true, ite_false, ite_true, Bind.bind, Except.bind, pure,
    Except.pure]

/-- **C8 amended.**  For a part dispatched as an attachment whose
Content-Disposition is present (a truthy string `cd`): the candidate name
is searched in fixed priority order Content-Disposition, Content-Type,
Content-type, the first non-empty extraction being percent-decoded into
`name` (here the search succeeds already on `cd`, even if Content-Type
also carries a name); `contentId` is the Content-ID value with
surrounding angle brackets stripped (when non-empty after stripping);
`inline` is true iff `cd` begins, after optional leading whitespace, with
"inline"; and `size` is the integer of the first `size=` parameter of
`cd`, defaulting to 0 when that parameter is absent or unparsable.  (When
Content-Disposition is absent, the counterexample shows `inline` and
`size` stay unset instead of defaulting.) -/
theorem C8_amended (svc : Svc) (hs : Headers) (content : Option CVal)
    (r r' : ReadedEml) (cd ctv cid nd : Chars)
    (hcd : hGet hs cdKey = some (.str cd)) (hcdT : cd ≠ [])
    (hct : jsOr (hGet hs ctKey) (hGet hs ctKey2) = some (.str ctv)) (hctT : ctv ≠ [])
    (hcid : jsOr (hGet hs ("Content-ID".data)) (hGet hs ("Content-Id".data)) =
      some (.str cid))
    (hcidT : stripAngles cid ≠ [])
    (hname : extractName cd ≠ [])
    (hdec : jsDecodeURI (extractName cd) = .ok nd)
    (happ : appendB svc (some hs) content r = .ok r') :
    r'.attachments = some ((r.attachments.getD []) ++
      [{ contentId := some (stripAngles cid), name := some nd,
         contentType := some (.str ctv), inline := some (inlineTest cd),
         size := some (sizeOfCd cd) }]) ∧
    r'.text = r.text ∧ r'.html = r.html := by
  unfold appendB at happ
  simp only [hcd, isEmpty_false_of_ne_nil hcdT, hvTruthy, optTruthy,
    Bool.not_false, Bool.not_true, Bool.false_and, Bool.and_false,
    Bool.false_eq_true, ite_false] at happ
  rw [exceptBindOk] at happ
  obtain ⟨c1, _, happ⟩ := happ
  rw [exceptBindOk] at happ
  obtain ⟨a, hmk, happ⟩ := happ
  rw [mkAttachment_spec hs cd ctv cid nd hcd hcdT hct hctT hcid hcidT hname hdec]
    at hmk
  simp only [Except.ok.injEq] at hmk
  subst hmk
  simp only [pure, Except.pure, Except.ok.injEq] at happ
  subst happ
  exact ⟨rfl, rfl, rfl⟩

def c8whs : Headers :=
  [(cdKey, .str ("attachment; filename=\"f.txt\"; size=10".data)),
   (ctKey, .str ("application/octet-stream".data)),
   ("Content-ID".data, .str ("<id1>".data))]

def c8wRes : ReadedEml :=
  match appendB svcDefault (some c8whs) (some (.cstr ("DATA".data))) {} with
  | .ok r => r
  | .error _ => {}

theorem C8_amended_witness :
    extractName ("attachment; filename=\"f.txt\"; size=10".data) = "f.txt".data ∧
    appendB svcDefault (some c8whs) (some (.cstr ("DATA".data))) {} = .ok c8wRes ∧
    c8wRes.attachments = some
      [{ contentId := some ("id1".data), name := some ("f.txt".data),
         contentType := some (.str ("application/octet-stream".data)),
         inline := some false, size := some 10 }] := by
  refine ⟨by decide, by decide, ?_⟩
  have h := C8_amended svcDefault c8whs (some (.cstr ("DATA".data))) {} c8wRes
    ("attachment; filename=\"f.txt\"; size=10".data)
    ("application/octet-stream".data) ("<id1>".data) ("f.txt".data)
    (by decide) (by decide) (by decide) (by decide) (by decide) (by decide)
    (by decide) (by decide) (by decide)
  rw [h.1]
  decide

/-! ## C7: the body-shape invariant -/

mutual
def partOk : PartObj → Bool
  | .mk _ b => bodyOk b
def bodyOk : Option BodyVal → Bool
  | none => true
  | some (.str _) => true
  | some (.arr es) => elemsOk es
def elemsOk : List BElem → Bool
  | [] => true
  | e :: rest => elemOkB e && elemsOk rest
def elemOkB : BElem → Bool
  | .str _ => false
  | .bnd bb => bndOk bb
def bndOk : BoundaryObj → Bool
  | .mk _ _ p => partValOk p
def partValOk : Option PartVal → Bool
  | none => true
  | some (.str _) => true
  | some (.obj q) => partOk q
end

/-- the invariant on a parse state: the finished body elements are all
boundary records. -/
def stOk (st : PSt) : Bool :=
  match st.body with
  | some (.barr fin) => elemsOk fin
  | _ => true

def resSt : StepRes → PSt
  | .cont s => s
  | .halt s => s

theorem elemsOk_append (xs : List BElem) (e : BElem) :
    elemsOk (xs ++ [e]) = (elemsOk xs && elemOkB e) := by
  induction xs with
  | nil => simp [elemsOk]
  | cons x xs ih => simp [elemsOk, ih, Bool.and_assoc]

theorem completeOpen_ok (cf : List Chars → Except EmlError PartObj)
    (hcf : ∀ ls p, cf ls = .ok p → partOk p = true)
    (b : BVar) (e : BElem) (h : completeOpen cf b = .ok e) : elemOkB e = true := by
  unfold completeOpen at h
  rcases hb : b.blines with _ | ls <;> rw [hb] at h
  · cases h
  · rw [exceptBindOk] at h
    obtain ⟨p, hp, h⟩ := h
    simp only [pure, Except.pure, Except.ok.injEq] at h
    subst h
    simpa [elemOkB, bndOk, partValOk] using hcf ls p hp

theorem pushElem_ok (b : Option BodySt) (e : BElem)
    (hb : (match b with
      | some (.barr fin) => elemsOk fin
      | _ => true) = true)
    (he : elemOkB e = true) :
    (match pushElem b e with
      | some (.barr fin) => elemsOk fin
      | _ => true) = true := by
  rcases b with _ | ⟨s | fin⟩
  · simp [pushElem]
  · simp [pushElem]
  · simp only [pushElem]
    rw [elemsOk_append]
    simp_all

theorem stOk_of_body_eq {st st' : PSt} (h : st'.body = st.body)
    (hst : stOk st = true) : stOk st' = true := by
  unfold stOk at hst ⊢
  rw [h]
  exact hst

theorem blankLineStep_ok (opts : Options) (st : PSt) (l : Chars)
    (rest : List Chars) (hst : stOk st = true) :
    stOk (resSt (blankLineStep opts st l rest)) = true := by
  unfold blankLineStep
  by_cases hho : opts.headersOnly = true
  · rw [if_pos hho]
    exact stOk_of_body_eq rfl hst
  · rw [if_neg hho]
    rcases hj : jsOr (hGet st.headers ("Content-Type".data))
        (hGet st.headers ("Content-type".data)) with _ | v
    · simp only [optTruthy, Bool.not_false, ite_true]
      cases hcc : st.checkedForCt <;>
        simp only [ite_true, ite_false, Bool.false_eq_true]
      · by_cases hpk : (("Content-Type".data).isPrefixOf (jsTrim (joinCRLF (l :: rest))) ||
            ("Content-type".data).isPrefixOf (jsTrim (joinCRLF (l :: rest)))) = true
        · rw [if_pos hpk]
          exact stOk_of_body_eq rfl hst
        · rw [if_neg hpk]
          exact stOk_of_body_eq rfl hst
      · exact stOk_of_body_eq rfl hst
    · cases htv : hvTruthy v
      · simp only [optTruthy, htv, Bool.not_false, ite_true]
        cases hcc : st.checkedForCt <;>
          simp only [ite_true, ite_false, Bool.false_eq_true]
        · by_cases hpk : (("Content-Type".data).isPrefixOf (jsTrim (joinCRLF (l :: rest))) ||
              ("Content-type".data).isPrefixOf (jsTrim (joinCRLF (l :: rest)))) = true
          · rw [if_pos hpk]
            exact stOk_of_body_eq rfl hst
          · rw [if_neg hpk]
            exact stOk_of_body_eq rfl hst
        · exact stOk_of_body_eq rfl hst
      · simp only [optTruthy, htv, Bool.not_true, Bool.false_eq_true, ite_false]
        cases hmt : multipartTest (hvStr v) <;>
          simp only [ite_true, ite_false, Bool.false_eq_true]
        · exact stOk_of_body_eq rfl hst
        · rcases hgb : getBoundary (hvStr v) with _ | b
          · exact stOk_of_body_eq rfl hst
          · rcases b with _ | ⟨x, xs⟩
            · simp only [List.isEmpty_nil, Bool.not_true, Bool.false_eq_true,
                ite_false]
              exact stOk_of_body_eq rfl hst
            · simp only [List.isEmpty_cons, Bool.not_false, ite_true]
              simp [stOk, resSt, elemsOk]

theorem contAppend_body (st : PSt) (r : Chars) (st' : PSt)
    (h : contAppend st r = .ok st') : st'.body = st.body := by
  unfold contAppend at h
  cases hmh : st.isMultiHeader <;> rw [hmh] at h <;>
    simp only [ite_true, ite_false, Bool.false_eq_true] at h <;>
    rcases hg : hGet st.headers st.lastHeaderName with _ | ⟨v⟩ | ⟨vs⟩ <;>
    simp only [hg] at h
  · simp only [pure, Except.pure, Except.ok.injEq] at h
    subst h; rfl
  · simp only [pure, Except.pure, Except.ok.injEq] at h
    subst h; rfl
  · simp only [pure, Except.pure, Except.ok.injEq] at h
    subst h; rfl
  · cases h
  · cases h
  · rcases hl : vs.getLast? with _ | lastv <;> simp only [hl] at h <;>
      simp only [pure, Except.pure, Except.ok.injEq] at h <;> subst h <;> rfl

theorem nameValStep_body (st : PSt) (n v : Chars) :
    (nameValStep st n v).body = st.body := by
  unfold nameValStep
  cases ht : optTruthy (hGet st.headers n)
  · simp only [ht, Bool.false_eq_true, ite_false]
  · simp only [ht, ite_true]
    rcases hg : hGet st.headers n with _ | ⟨s⟩ | ⟨vs⟩ <;> simp only [hg]

theorem step_ok (cf : List Chars → Except EmlError PartObj) (opts : Options)
    (st : PSt) (prev : Option Chars) (l : Chars) (rest : List Chars)
    (res : StepRes)
    (hcf : ∀ ls p, cf ls = .ok p → partOk p = true)
    (hst : stOk st = true)
    (h : step cf opts st prev l rest = .ok res) : stOk (resSt res) = true := by
  unfold step at h
  cases hin : st.insideBody <;> rw [hin] at h <;> simp only [Bool.not_false,
    Bool.not_true, ite_true, ite_false, Bool.false_eq_true] at h
  · -- header mode
    cases hl : l.isEmpty <;> rw [hl] at h <;>
      simp only [ite_true, ite_false, Bool.false_eq_true] at h
    · rcases hc : contMatch l with _ | rr <;> rw [hc] at h
      · rcases hn : nameValMatch l with _ | ⟨n, v⟩ <;> rw [hn] at h <;>
          simp only [pure, Except.pure, Except.ok.injEq] at h <;> subst h
        · exact stOk_of_body_eq rfl hst
        · exact stOk_of_body_eq (nameValStep_body st n v) hst
      · rw [exceptBindOk] at h
        obtain ⟨st1, hca, h⟩ := h
        simp only [pure, Except.pure, Except.ok.injEq] at h
        subst h
        exact stOk_of_body_eq (contAppend_body st rr st1 hca) hst
    · simp only [pure, Except.pure, Except.ok.injEq] at h
      subst h
      exact blankLineStep_ok opts st l rest hst
  · -- body mode
    cases hmp : st.isMultipart <;> rw [hmp] at h <;>
      simp only [ite_true, ite_false, Bool.false_eq_true] at h
    · -- solid string body
      simp only [pure, Except.pure, Except.ok.injEq] at h
      subst h
      simp [stOk, resSt]
    · -- multipart body
      by_cases hstart : (('-' :: '-' :: st.findBoundary).isPrefixOf l &&
          !('-' :: '-' :: st.findBoundary ++ ['-', '-']).isPrefixOf l) = true
      · rw [if_pos hstart] at h
        rcases hbv : st.bvar with _ | b <;> simp only [hbv] at h
        · simp only [pure, Except.pure, Bind.bind, Except.bind] at h
          rcases hm : markerMatch l with _ | m <;> simp only [hm] at h
          · cases h
          · simp only [Except.ok.injEq] at h
            subst h
            exact stOk_of_body_eq rfl hst
        · rcases hbl : b.blines with _ | ls <;> simp only [hbl] at h
          · simp only [pure, Except.pure, Bind.bind, Except.bind] at h
            rcases hm : markerMatch l with _ | m <;> simp only [hm] at h
            · cases h
            · simp only [Except.ok.injEq] at h
              subst h
              exact stOk_of_body_eq rfl hst
          · rw [exceptBindOk] at h
            obtain ⟨st1, hcomp, h⟩ := h
            rw [exceptBindOk] at hcomp
            obtain ⟨e, hce, hcomp⟩ := hcomp
            simp only [pure, Except.pure, Except.ok.injEq] at hcomp
            subst hcomp
            have he := completeOpen_ok cf hcf b e hce
            rcases hm : markerMatch l with _ | m <;> simp only [hm] at h
            · cases h
            · simp only [pure, Except.pure, Except.ok.injEq] at h
              subst h
              unfold stOk
              exact pushElem_ok st.body e hst he
      · rw [if_neg hstart] at h
        cases hib : st.insideBoundary <;> rw [hib] at h <;>
          simp only [ite_true, ite_false, Bool.false_eq_true] at h
        · simp only [pure, Except.pure, Except.ok.injEq] at h
          subst h
          exact stOk_of_body_eq rfl hst
        · by_cases hend : ((match st.bvar with
              | some b => !b.name.isEmpty
              | none => false) && prev == some [] &&
              ('-' :: '-' :: st.findBoundary ++ ['-', '-']).isPrefixOf l) = true
          · rw [if_pos hend] at h
            rcases hbv : st.bvar with _ | b <;> simp only [hbv] at h
            · simp only [pure, Except.pure, Except.ok.injEq] at h
              subst h
              exact stOk_of_body_eq rfl hst
            · rw [exceptBindOk] at h
              obtain ⟨e, hce, h⟩ := h
              simp only [pure, Except.pure, Except.ok.injEq] at h
              subst h
              have he := completeOpen_ok cf hcf b e hce
              unfold stOk
              exact pushElem_ok st.body e hst he
          · rw [if_neg hend] at h
            split at h
            · simp only [pure, Except.pure, Except.ok.injEq] at h
              subst h
              exact stOk_of_body_eq rfl hst
            · rcases hbv : st.bvar with _ | b <;> simp only [hbv] at h
              · simp only [pure, Except.pure, Except.ok.injEq] at h
                subst h
                exact stOk_of_body_eq rfl hst
              · rcases hbl : b.blines with _ | ls <;> simp only [hbl] at h
                · cases h
                · simp only [pure, Except.pure, Except.ok.injEq] at h
                  subst h
                  exact stOk_of_body_eq rfl hst

theorem pLoop_ok (cf : List Chars → Except EmlError PartObj) (opts : Options)
    (hcf : ∀ ls p, cf ls = .ok p → partOk p = true) :
    ∀ (lines : List Chars) (st : PSt) (prev : Option Chars) (st' : PSt),
      stOk st = true → pLoop cf opts st prev lines = .ok st' → stOk st' = true := by
  intro lines
  induction lines with
  | nil =>
    intro st prev st' hst h
    unfold pLoop at h
    simp only [pure, Except.pure, Except.ok.injEq] at h
    subst h
    exact hst
  | cons l rest ih =>
    intro st prev st' hst h
    unfold pLoop at h
    rw [exceptBindOk] at h
    obtain ⟨res, hstep, h⟩ := h
    have hres := step_ok cf opts st prev l rest res hcf hst hstep
    cases res with
    | cont s => exact ih s (some l) st' hres h
    | halt s =>
      simp only [pure, Except.pure, Except.ok.injEq] at h
      subst h
      exact hres

theorem finalizeSt_ok (cf : List Chars → Except EmlError PartObj)
    (hcf : ∀ ls p, cf ls = .ok p → partOk p = true) (st : PSt) (p : PartObj)
    (hst : stOk st = true) (h : finalizeSt cf st = .ok p) : partOk p = true := by
  unfold finalizeSt at h
  rcases hb : st.body with _ | ⟨s⟩ | ⟨fin⟩ <;> simp only [hb] at h
  · simp only [pure, Except.pure, Except.ok.injEq] at h
    subst h
    simp [partOk, bodyOk]
  · simp only [pure, Except.pure, Except.ok.injEq] at h
    subst h
    simp [partOk, bodyOk]
  · have hfin : elemsOk fin = true := by
      unfold stOk at hst
      rw [hb] at hst
      exact hst
    rcases hbv : st.bvar with _ | b <;> simp only [hbv] at h
    · simp only [pure, Except.pure, Except.ok.injEq] at h
      subst h
      simpa [partOk, bodyOk] using hfin
    · rcases hbl : b.blines with _ | ls <;> simp only [hbl] at h
      · simp only [pure, Except.pure, Except.ok.injEq] at h
        subst h
        simpa [partOk, bodyOk] using hfin
      · rw [exceptBindOk] at h
        obtain ⟨e, hce, h⟩ := h
        simp only [pure, Except.pure, Except.ok.injEq] at h
        subst h
        have he := completeOpen_ok cf hcf b e hce
        simp only [partOk, bodyOk]
        rw [elemsOk_append, hfin, he]
        rfl

theorem parseRec_ok : ∀ (f : Nat) (opts : Options) (lines : List Chars)
    (p : PartObj), parseRec f opts lines = .ok p → partOk p = true := by
  intro f
  induction f with
  | zero =>
    intro opts lines p h
    cases h
  | succ f ih =>
    intro opts lines p h
    unfold parseRec at h
    rw [exceptBindOk] at h
    obtain ⟨st, hpl, h⟩ := h
    have hst := pLoop_ok (parseRec f opts) opts (fun ls q hq => ih opts ls q hq)
      lines {} none st rfl hpl
    exact finalizeSt_ok (parseRec f opts) (fun ls q hq => ih opts ls q hq) st p hst h

/-- **C7.**  Every tree `parse` returns satisfies the body-shape
invariant: each `Part`'s body is absent, a single plain string, or a list
*all* of whose elements are Boundary records — never a mixture of
strings and Boundary records (and so on recursively through every nested
part). -/
theorem C7_body_invariant (eml : Chars) (opts : Option Options) (p : PartObj)
    (h : parseOutcome (.jstr eml) opts = .ok p) : partOk p = true := by
  unfold parseOutcome parseLines at h
  exact parseRec_ok _ _ _ p h

def c7eml : Chars :=
  ("Content-Type: multipart/mixed; boundary=B\r\n\r\n--B\r\nContent-Type: text/plain\r\n\r\nbody\r\n--B--").data

def c7res : PartObj :=
  match parseOutcome (.jstr c7eml) none with
  | .ok p => p
  | .error _ => .mk none none

theorem C7_body_invariant_witness :
    parseOutcome (.jstr c7eml) none = .ok c7res ∧ partOk c7res = true :=
  ⟨rfl, C7_body_invariant c7eml none c7res rfl⟩

/-! ## C4: top-down vs. bottom-up boundary resolution -/

def c4dupLines : List (List Char) := ["A: 1".data, "A: 2".data, [], "x".data]

/-- the value of header `A` in the top-down parse of the duplicate-header
lines. -/
def c4tdA : Option HVal :=
  match parseRec 5 {} c4dupLines with
  | .ok p => p.headers.bind (fun hs => hGet hs ['A'])
  | .error _ => none

/-- the value of header `A` in the bottom-up resolution of the same
lines. -/
def c4buA : Option HVal :=
  match completeBoundaryF 5 ⟨['B'], some c4dupLines⟩ with
  | .ok bo => (cbPartHeaders bo).bind (fun hs => hGet hs ['A'])
  | .error _ => none

/-- **C4 counterexample.**  On the boundary `{boundary := "B", lines :=
["A: 1", "A: 2", "", "x"]}` both algorithms succeed, but the top-down
parser promotes the repeated header `A` to the list `["1", "2"]` while
the bottom-up resolver simply overwrites, keeping the plain string `"2"`:
the resulting Parts are not structurally identical. -/
theorem C4_counterexample :
    c4tdA = some (.list [['1'], ['2']]) ∧ c4buA = some (.str ['2']) ∧
    c4tdA ≠ c4buA := by decide

/-- the name captured by the header regex on a line (empty if the line is
not a header line). -/
def hdrName (l : Chars) : Chars := ((nameValMatch l).getD ([], [])).1

def hdrVal (l : Chars) : Chars := ((nameValMatch l).getD ([], [])).2

/-- the header map both loops build from simple distinct header lines. -/
def hdrKVs (hdrs : List Chars) : Headers :=
  hdrs.map (fun l => (hdrName l, .str (hdrVal l)))

theorem hGet_none_of_all_ne {hs : Headers} {n : Chars}
    (h : ∀ p ∈ hs, p.1 ≠ n) : hGet hs n = none := by
  unfold hGet
  rw [List.find?_eq_none.mpr]
  · rfl
  · intro p hp
    simpa using h p hp

theorem all_ne_of_hGet_none {hs : Headers} {n : Chars}
    (h : hGet hs n = none) : ∀ p ∈ hs, p.1 ≠ n := by
  intro p hp
  unfold hGet at h
  rcases hf : hs.find? (fun q => q.1 == n) with _ | q
  · have := List.find?_eq_none.mp hf p hp
    simpa using this
  · rw [hf] at h
    cases h

theorem hSet_fresh {hs : Headers} {n : Chars} (v : HVal)
    (h : hGet hs n = none) : hSet hs n v = hs ++ [(n, v)] := by
  unfold hSet
  unfold hGet at h
  rcases hf : hs.find? (fun q => q.1 == n) with _ | q
  · rw [hf]
    rfl
  · rw [hf] at h
    cases h

theorem hGet_append_ne {hs : Headers} {n k : Chars} {v : HVal}
    (h : hGet hs k = none) (hnk : n ≠ k) : hGet (hs ++ [(n, v)]) k = none := by
  apply hGet_none_of_all_ne
  intro p hp
  rcases List.mem_append.mp hp with h1 | h2
  · exact all_ne_of_hGet_none h p h1
  · simp only [List.mem_singleton] at h2
    subst h2
    exact hnk

/-- a fresh simple header line appends its (name, value) pair and records
the name as most recent. -/
theorem step_freshHeader (cf : List Chars → Except EmlError PartObj)
    (opts : Options) (st : PSt) (prev : Option Chars) (l : Chars)
    (rest : List Chars) (n v : Chars)
    (hin : st.insideBody = false) (hc : contMatch l = none) (hl : l ≠ [])
    (hn : nameValMatch l = some (n, v)) (hfresh : hGet st.headers n = none) :
    step cf opts st prev l rest = .ok (.cont { st with
      lastHeaderName := n, isMultiHeader := false,
      headers := st.headers ++ [(n, .str v)] }) := by
  unfold step
  simp only [hin, Bool.not_false, ite_true, isEmpty_false_of_ne_nil hl,
    Bool.false_eq_true, ite_false, hc, hn, nameValStep, hfresh, optTruthy,
    hSet_fresh _ hfresh, pure, Except.pure]

theorem pLoop_cons_cont (cf : List Chars → Except EmlError PartObj)
    (opts : Options) (st : PSt) (prev : Option Chars) (l : Chars)
    (rest : List Chars) (st' : PSt)
    (h : step cf opts st prev l rest = .ok (.cont st')) :
    pLoop cf opts st prev (l :: rest) = pLoop cf opts st' (some l) rest := by
  simp only [pLoop]
  rw [h]
  simp [Bind.bind, Except.bind]

/-- the top-down header phase: scanning fresh, pairwise-distinct simple
header lines appends all their (name, value) pairs in order. -/
theorem pLoop_hdrPhase (cf : List Chars → Except EmlError PartObj)
    (opts : Options) :
    ∀ (hdrs : List Chars) (st : PSt) (prev : Option Chars) (tail : List Chars),
      st.insideBody = false →
      (∀ l ∈ hdrs, contMatch l = none ∧ l ≠ [] ∧ (nameValMatch l).isSome) →
      (∀ l ∈ hdrs, hGet st.headers (hdrName l) = none) →
      (hdrs.map hdrName).Nodup →
      ∃ lhn mh prev2,
        pLoop cf opts st prev (hdrs ++ tail) =
          pLoop cf opts { st with
            headers := st.headers ++ hdrKVs hdrs,
            lastHeaderName := lhn, isMultiHeader := mh } prev2 tail := by
  intro hdrs
  induction hdrs with
  | nil =>
    intro st prev tail hin _ _ _
    refine ⟨st.lastHeaderName, st.isMultiHeader, prev, ?_⟩
    simp [hdrKVs]
  | cons l ls ih =>
    intro st prev tail hin hH hFresh hNd
    obtain ⟨hc, hl, hnv⟩ := hH l (List.mem_cons_self l ls)
    rcases hn : nameValMatch l with _ | ⟨n, v⟩
    · simp [hn] at hnv
    · have hfresh : hGet st.headers n = none := by
        have := hFresh l (List.mem_cons_self l ls)
        rwa [hdrName, hn] at this
      have hstep := step_freshHeader cf opts st prev l (ls ++ tail) n v
        hin hc hl hn hfresh
      set st' : PSt := { st with
        lastHeaderName := n, isMultiHeader := false,
        headers := st.headers ++ [(n, .str v)] } with hst'
      have h1 : pLoop cf opts st prev ((l :: ls) ++ tail) =
          pLoop cf opts st' (some l) (ls ++ tail) := by
        simpa using pLoop_cons_cont cf opts st prev l (ls ++ tail) st' hstep
      have hdl : hdrName l = n := by simp [hdrName, hn]
      have hFresh' : ∀ l2 ∈ ls, hGet st'.headers (hdrName l2) = none := by
        intro l2 hl2
        have hne : n ≠ hdrName l2 := by
          have hnotin : hdrName l ∉ ls.map hdrName := by
            simpa using (List.nodup_cons.mp hNd).1
          intro he
          exact hnotin (by
            rw [hdl, he]
            exact List.mem_map_of_mem hdrName hl2)
        exact hGet_append_ne (hFresh l2 (List.mem_cons_of_mem l hl2)) hne
      obtain ⟨lhn, mh, prev2, h2⟩ := ih st' (some l) tail (by rw [hst']; exact hin)
        (fun l2 hl2 => hH l2 (List.mem_cons_of_mem l hl2)) hFresh'
        (List.nodup_cons.mp hNd).2
      refine ⟨lhn, mh, prev2, ?_⟩
      rw [h1, h2]
      have hKV : st'.headers ++ hdrKVs ls = st.headers ++ hdrKVs (l :: ls) := by
        simp [hst', hdrKVs, hdrName, hdrVal, hn, List.append_assoc]
      rw [show ({ st' with
          headers := st'.headers ++ hdrKVs ls,
          lastHeaderName := lhn, isMultiHeader := mh } : PSt) =
        { st with
          headers := st.headers ++ hdrKVs (l :: ls),
          lastHeaderName := lhn, isMultiHeader := mh } from by
          rw [hKV]]

theorem pLoop_cons_halt (cf : List Chars → Except EmlError PartObj)
    (opts : Options) (st : PSt) (prev : Option Chars) (l : Chars)
    (rest : List Chars) (st' : PSt)
    (h : step cf opts st prev l rest = .ok (.halt st')) :
    pLoop cf opts st prev (l :: rest) = .ok st' := by
  simp only [pLoop]
  rw [h]
  simp [Bind.bind, Except.bind, pure, Except.pure]

/-- the blank separator line when Content-Type is present, truthy and not
multipart: enter the body; nothing else in the state changes. -/
theorem step_blankNonMulti (cf : List Chars → Except EmlError PartObj)
    (opts : Options) (st : PSt) (prev : Option Chars) (rest : List Chars)
    (v : HVal) (hin : st.insideBody = false) (hho : opts.headersOnly = false)
    (hv : jsOr (hGet st.headers ("Content-Type".data))
               (hGet st.headers ("Content-type".data)) = some v)
    (hvt : hvTruthy v = true) (hmp : multipartTest (hvStr v) = false) :
    step cf opts st prev [] rest = .ok (.cont { st with insideBody := true }) := by
  unfold step blankLineStep
  simp only [hin, Bool.not_false, ite_true, List.isEmpty_nil, hho,
    Bool.false_eq_true, ite_false, hv, optTruthy, hvt, Bool.not_true, hmp,
    pure, Except.pure]

/-- inside the body of a non-multipart part, the loop joins every
remaining line into the string body and halts. -/
theorem step_bodyHalt (cf : List Chars → Except EmlError PartObj)
    (opts : Options) (st : PSt) (prev : Option Chars) (l : Chars)
    (rest : List Chars) (hin : st.insideBody = true)
    (hmp : st.isMultipart = false) :
    step cf opts st prev l rest =
      .ok (.halt { st with body := some (.bstr (joinCRLF (l :: rest))) }) := by
  unfold step
  simp only [hin, Bool.not_true, Bool.false_eq_true, ite_false, hmp,
    pure, Except.pure]

/-- a blank separator followed by nothing: the state just enters the body. -/
theorem pLoop_blankThenNil (cf : List Chars → Except EmlError PartObj)
    (st : PSt) (prev : Option Chars) (v : HVal)
    (hin : st.insideBody = false)
    (hv : jsOr (hGet st.headers ("Content-Type".data))
               (hGet st.headers ("Content-type".data)) = some v)
    (hvt : hvTruthy v = true) (hmp : multipartTest (hvStr v) = false) :
    pLoop cf {} st prev [[]] = .ok { st with insideBody := true } := by
  rw [pLoop_cons_cont cf {} st prev [] [] { st with insideBody := true }
    (step_blankNonMulti cf {} st prev [] v hin rfl hv hvt hmp)]
  rfl

/-- a blank separator followed by a plain (non-multipart) body: the body
lines are joined into a string body. -/
theorem pLoop_blankThenBody (cf : List Chars → Except EmlError PartObj)
    (st : PSt) (prev : Option Chars) (v : HVal) (l1 : Chars) (t : List Chars)
    (hin : st.insideBody = false) (hmp0 : st.isMultipart = false)
    (hv : jsOr (hGet st.headers ("Content-Type".data))
               (hGet st.headers ("Content-type".data)) = some v)
    (hvt : hvTruthy v = true) (hmp : multipartTest (hvStr v) = false) :
    pLoop cf {} st prev ([] :: l1 :: t) =
      .ok { st with insideBody := true, body := some (.bstr (joinCRLF (l1 :: t))) } := by
  rw [pLoop_cons_cont cf {} st prev [] (l1 :: t) { st with insideBody := true }
    (step_blankNonMulti cf {} st prev (l1 :: t) v hin rfl hv hvt hmp)]
  rw [pLoop_cons_halt cf {} { st with insideBody := true } (some []) l1 t
    { { st with insideBody := true } with body := some (.bstr (joinCRLF (l1 :: t))) }
    (step_bodyHalt cf {} { st with insideBody := true } (some []) l1 t rfl hmp0)]

/-- a fresh simple header line in the bottom-up loop appends its
(name, value) pair and records the name as most recent. -/
theorem cbLoop_freshHeader (cf : BRaw → Except EmlError (Option BoundaryObj))
    (st : CBSt) (prev : Option Chars) (l : Chars) (rest : List Chars)
    (n v : Chars) (hin : st.insideBody = false) (hl : l ≠ [])
    (hn : nameValMatch l = some (n, v)) (hfresh : hGet st.headers n = none) :
    cbLoop cf st prev (l :: rest) =
      cbLoop cf { st with lastHeaderName := n, headers := st.headers ++ [(n, .str v)] }
        (some l) rest := by
  rw [show st.headers ++ [(n, HVal.str v)] = hSet st.headers n (.str v) from
    (hSet_fresh _ hfresh).symm]
  simp only [cbLoop, hin, Bool.not_false, ite_true, isEmpty_false_of_ne_nil hl,
    Bool.false_eq_true, ite_false, hn]

/-- the blank separator in the bottom-up loop: enter the body. -/
theorem cbLoop_blank (cf : BRaw → Except EmlError (Option BoundaryObj))
    (st : CBSt) (prev : Option Chars) (rest : List Chars)
    (hin : st.insideBody = false) :
    cbLoop cf st prev ([] :: rest) =
      cbLoop cf { st with insideBody := true } (some []) rest := by
  simp only [cbLoop, hin, Bool.not_false, ite_true, List.isEmpty_nil]

/-- inside the body with no open child boundary and no marker on the
current line, the bottom-up loop joins all remaining lines into a string
body and stops. -/
theorem cbLoop_bodyStr (cf : BRaw → Except EmlError (Option BoundaryObj))
    (st : CBSt) (prev : Option Chars) (l : Chars) (rest : List Chars)
    (hin : st.insideBody = true) (hm : markerMatch l = none)
    (hch : st.child = none) :
    cbLoop cf st prev (l :: rest) =
      .ok { st with body := some (.str (joinCRLF (l :: rest))) } := by
  simp only [cbLoop, hin, Bool.not_true, Bool.false_eq_true, ite_false, hm,
    Option.isSome_none, Bool.false_and, Bool.and_false, hch, pure, Except.pure]

theorem cbLoop_blankThenNil (cf : BRaw → Except EmlError (Option BoundaryObj))
    (st : CBSt) (prev : Option Chars) (hin : st.insideBody = false) :
    cbLoop cf st prev [[]] = .ok { st with insideBody := true } := by
  rw [cbLoop_blank cf st prev [] hin]
  rfl

theorem cbLoop_blankThenBody (cf : BRaw → Except EmlError (Option BoundaryObj))
    (st : CBSt) (prev : Option Chars) (l1 : Chars) (t : List Chars)
    (hin : st.insideBody = false) (hch : st.child = none)
    (hm : markerMatch l1 = none) :
    cbLoop cf st prev ([] :: l1 :: t) =
      .ok { st with insideBody := true, body := some (.str (joinCRLF (l1 :: t))) } := by
  rw [cbLoop_blank cf st prev (l1 :: t) hin]
  rw [cbLoop_bodyStr cf { st with insideBody := true } (some []) l1 t rfl hm hch]

/-- the bottom-up header phase: scanning fresh, pairwise-distinct simple
header lines appends all their (name, value) pairs in order. -/
theorem cbLoop_hdrPhase (cf : BRaw → Except EmlError (Option BoundaryObj)) :
    ∀ (hdrs : List Chars) (st : CBSt) (prev : Option Chars) (tail : List Chars),
      st.insideBody = false →
      (∀ l ∈ hdrs, l ≠ [] ∧ (nameValMatch l).isSome) →
      (∀ l ∈ hdrs, hGet st.headers (hdrName l) = none) →
      (hdrs.map hdrName).Nodup →
      ∃ lhn prev2,
        cbLoop cf st prev (hdrs ++ tail) =
          cbLoop cf { st with
            headers := st.headers ++ hdrKVs hdrs,
            lastHeaderName := lhn } prev2 tail := by
  intro hdrs
  induction hdrs with
  | nil =>
    intro st prev tail hin _ _ _
    refine ⟨st.lastHeaderName, prev, ?_⟩
    simp [hdrKVs]
  | cons l ls ih =>
    intro st prev tail hin hH hFresh hNd
    obtain ⟨hl, hnv⟩ := hH l (List.mem_cons_self l ls)
    rcases hn : nameValMatch l with _ | ⟨n, v⟩
    · simp [hn] at hnv
    · have hfresh : hGet st.headers n = none := by
        have := hFresh l (List.mem_cons_self l ls)
        rwa [hdrName, hn] at this
      set st' : CBSt := { st with
        lastHeaderName := n,
        headers := st.headers ++ [(n, .str v)] } with hst'
      have h1 : cbLoop cf st prev ((l :: ls) ++ tail) =
          cbLoop cf st' (some l) (ls ++ tail) := by
        simpa using cbLoop_freshHeader cf st prev l (ls ++ tail) n v hin hl hn hfresh
      have hdl : hdrName l = n := by simp [hdrName, hn]
      have hFresh' : ∀ l2 ∈ ls, hGet st'.headers (hdrName l2) = none := by
        intro l2 hl2
        have hne : n ≠ hdrName l2 := by
          have hnotin : hdrName l ∉ ls.map hdrName := by
            simpa using (List.nodup_cons.mp hNd).1
          intro he
          exact hnotin (by
            rw [hdl, he]
            exact List.mem_map_of_mem hdrName hl2)
        exact hGet_append_ne (hFresh l2 (List.mem_cons_of_mem l hl2)) hne
      obtain ⟨lhn, prev2, h2⟩ := ih st' (some l) tail (by rw [hst']; exact hin)
        (fun l2 hl2 => hH l2 (List.mem_cons_of_mem l hl2)) hFresh'
        (List.nodup_cons.mp hNd).2
      refine ⟨lhn, prev2, ?_⟩
      rw [h1, h2]
      have hKV : st'.headers ++ hdrKVs ls = st.headers ++ hdrKVs (l :: ls) := by
        simp [hst', hdrKVs, hdrName, hdrVal, hn, List.append_assoc]
      rw [show ({ st' with
          headers := st'.headers ++ hdrKVs ls,
          lastHeaderName := lhn } : CBSt) =
        { st with
          headers := st.headers ++ hdrKVs (l :: ls),
          lastHeaderName := lhn } from by
          rw [hKV]]

/-- C4: the bottom-up `completeBoundary` and the top-down `parseRecursive`
agree on an already-isolated boundary's raw lines when those lines consist
of pairwise-distinct simple `Name: value` header lines with a truthy
non-multipart Content-Type, a blank separator, and a body whose first
line is not a boundary marker: the resolver returns exactly the Part the
parser returns from the same lines, wrapped in its Boundary record (the
amendment restricts the claim to this class — on duplicated header names
the two algorithms diverge, see the counterexample). -/
theorem C4_amended (f : Nat) (bname : Chars) (hdrs bodyLines : List Chars)
    (v : HVal) (hbn : bname ≠ [])
    (hH : ∀ l ∈ hdrs, contMatch l = none ∧ l ≠ [] ∧ (nameValMatch l).isSome)
    (hNd : (hdrs.map hdrName).Nodup)
    (hv : jsOr (hGet (hdrKVs hdrs) ("Content-Type".data))
               (hGet (hdrKVs hdrs) ("Content-type".data)) = some v)
    (hvt : hvTruthy v = true) (hmp : multipartTest (hvStr v) = false)
    (hbody : ∀ l1 ∈ bodyLines.take 1, markerMatch l1 = none) :
    ∃ p, parseRec (f + 1) {} (hdrs ++ [] :: bodyLines) = .ok p ∧
      completeBoundaryF (f + 1) ⟨bname, some (hdrs ++ [] :: bodyLines)⟩ =
        .ok (some (.mk bname none (some (.obj p)))) := by
  have h0 : parseRec (f + 1) ({} : Options) (hdrs ++ [] :: bodyLines) =
      pLoop (parseRec f {}) {} {} none (hdrs ++ [] :: bodyLines) >>=
        fun st => finalizeSt (parseRec f {}) st := by
    simp only [parseRec]
  have h0' : completeBoundaryF (f + 1) ⟨bname, some (hdrs ++ [] :: bodyLines)⟩ =
      cbLoop (completeBoundaryF f) {} none (hdrs ++ [] :: bodyLines) >>=
        fun st =>
          pure (some (.mk bname none (some (.obj (.mk (some st.headers) st.body))))) := by
    simp only [completeBoundaryF, isEmpty_false_of_ne_nil hbn, Bool.false_eq_true,
      ite_false, Option.getD_some]
  obtain ⟨lhn, mh, prev2, h1⟩ := pLoop_hdrPhase (parseRec f {}) {} hdrs {} none
    ([] :: bodyLines) rfl hH (fun l hl => rfl) hNd
  obtain ⟨lhn2, prev3, h1'⟩ := cbLoop_hdrPhase (completeBoundaryF f) hdrs {} none
    ([] :: bodyLines) rfl (fun l hl => ⟨(hH l hl).2.1, (hH l hl).2.2⟩)
    (fun l hl => rfl) hNd
  rcases bodyLines with _ | ⟨l1, t⟩
  · refine ⟨.mk (some (hdrKVs hdrs)) none, ?_, ?_⟩
    · rw [h0, h1, pLoop_blankThenNil (parseRec f {})
        { ({} : PSt) with headers := ({} : PSt).headers ++ hdrKVs hdrs, lastHeaderName := lhn, isMultiHeader := mh }
        prev2 v rfl hv hvt hmp]
      rfl
    · rw [h0', h1', cbLoop_blankThenNil (completeBoundaryF f)
        { ({} : CBSt) with headers := ({} : CBSt).headers ++ hdrKVs hdrs, lastHeaderName := lhn2 }
        prev3 rfl]
      rfl
  · have hm : markerMatch l1 = none := hbody l1 (by simp)
    refine ⟨.mk (some (hdrKVs hdrs)) (some (.str (joinCRLF (l1 :: t)))), ?_, ?_⟩
    · rw [h0, h1, pLoop_blankThenBody (parseRec f {})
        { ({} : PSt) with headers := ({} : PSt).headers ++ hdrKVs hdrs, lastHeaderName := lhn, isMultiHeader := mh }
        prev2 v l1 t rfl rfl hv hvt hmp]
      rfl
    · rw [h0', h1', cbLoop_blankThenBody (completeBoundaryF f)
        { ({} : CBSt) with headers := ({} : CBSt).headers ++ hdrKVs hdrs, lastHeaderName := lhn2 }
        prev3 l1 t rfl rfl hm]
      rfl

/-- Witness for the amended C4 theorem at a concrete input: one simple
header, a blank separator and one plain body line. -/
theorem C4_amended_witness :
    ∃ p, parseRec 2 {} (["Content-Type: text/plain".data] ++ [] :: ["hello".data]) = .ok p ∧
      completeBoundaryF 2 ⟨['B'], some (["Content-Type: text/plain".data] ++ [] :: ["hello".data])⟩ =
        .ok (some (.mk ['B'] none (some (.obj p)))) :=
  C4_amended 1 ['B'] ["Content-Type: text/plain".data] ["hello".data]
    (.str "text/plain".data) (by decide) (by decide) (by decide) (by decide)
    (by decide) (by decide) (by decide)

end Eml
